import Mathlib

set_option maxHeartbeats 1600000
set_option maxRecDepth 8192

/-!
Shallow embedding of the WAPI M0804C firmware stack:
`src/handler/src/AT_handler.c`, `src/handler/src/WAPI_M0804C.c`,
`src/uart_proto/src/uart_proto.c`, `src/uart_proto/src/t_list.c`.

Conventions used throughout:
* machine integers are `Nat` with an explicit `% 2^w` at every point where
  the C code can wrap (uint8 segment counters, uint16 buffer positions);
* byte buffers written through raw pointers are byte stores `Nat → Nat`
  (address to value); reading a buffer out is `(List.range n).map store`;
* OS objects are replaced by their observable state: a binary semaphore is
  a `Bool` (`true` = available), a queue wait is answered by an oracle
  function, UART transmissions are accumulated in a list of byte strings;
* function pointers that are only compared against NULL or invoked are
  modelled as `Option Nat` identity tags.
-/

/-- Variadic argument cell as read by `va_arg(args, void*)` in
`count_va_args` (AT_handler.c:150).  The dedicated `marker` constructor
models the sentinel pointer value `AT_CMD_END_MARKER` (`0xDEADBEEF`,
AT_handler.h); ordinary string/int argument cells never alias it. -/
inductive va_arg where
  | intArg (n : Int)
  | strArg (s : List Char)
  | marker
  deriving DecidableEq

/-- `count_placeholder` (AT_handler.c:119): counts `%s`/`%d` placeholders in
a template; a `%` immediately followed by `s` or `d` counts once and the
following character is skipped, any other `%` is advanced over one
character (so `"%%d"` still counts one placeholder, the inherited quirk
noted in the spec). -/
def count_placeholder : List Char → ℕ
  | [] => 0
  | '%' :: c :: rest =>
      if c = 's' ∨ c = 'd' then 1 + count_placeholder rest
      else count_placeholder (c :: rest)
  | _ :: rest => count_placeholder rest

/-- Loop of `count_va_args` (AT_handler.c:150): reads argument cells while
`cnt < max_cnt + 1`, stopping early at the `0xDEADBEEF` marker; numeric 0
is an ordinary argument (`intArg 0`), only the marker terminates. -/
def count_va_args_loop (max_cnt : ℕ) : ℕ → List va_arg → ℕ
  | cnt, [] => cnt
  | cnt, a :: rest =>
      if cnt < max_cnt + 1 then
        match a with
        | va_arg.marker => cnt
        | _ => count_va_args_loop max_cnt (cnt + 1) rest
      else cnt

/-- `count_va_args` (AT_handler.c:150). -/
def count_va_args (max_cnt : ℕ) (args : List va_arg) : ℕ :=
  count_va_args_loop max_cnt 0 args

/-- Decimal digits of `n`, most significant first; `fuel` bounds the
recursion and every call site passes at least `n + 1`. -/
def nat_to_digits : ℕ → ℕ → List Char
  | 0, _ => []
  | fuel + 1, n =>
      if n < 10 then [Char.ofNat (48 + n)]
      else nat_to_digits fuel (n / 10) ++ [Char.ofNat (48 + n % 10)]

/-- Decimal rendering of an `int` argument for the `%d` conversion. -/
def int_to_dec (i : Int) : List Char :=
  if i < 0 then '-' :: nat_to_digits (i.natAbs + 1) i.natAbs
  else nat_to_digits (i.toNat + 1) i.toNat

/-- Modelled from the C library: `vsnprintf`/`snprintf` restricted to the
plain `%s`/`%d` conversions this firmware's templates use
(AT_handler.c:211, WAPI_M0804C.c:791).  Returns the formatted byte string;
the caller compares its length against the buffer bound, mirroring the C
return value.  A placeholder whose argument cell has the wrong kind is
skipped (undefined behaviour in C, never exercised by the modelled call
sites). -/
def at_vsnprintf : List Char → List va_arg → List ℕ
  | [], _ => []
  | '%' :: c :: rest, args =>
      if c = 'd' then
        match args with
        | va_arg.intArg n :: tailArgs =>
            (int_to_dec n).map Char.toNat ++ at_vsnprintf rest tailArgs
        | _ => at_vsnprintf rest args
      else if c = 's' then
        match args with
        | va_arg.strArg s :: tailArgs =>
            s.map Char.toNat ++ at_vsnprintf rest tailArgs
        | _ => at_vsnprintf rest args
      else Char.toNat '%' :: at_vsnprintf (c :: rest) args
  | ch :: rest, args => Char.toNat ch :: at_vsnprintf rest args

/-- `at_status_t` (AT_handler.h). -/
inductive at_status where
  | AT_OK
  | AT_ERR_PARAM_INVALID
  | AT_ERR_ALREADY_INITED
  | AT_ERR_HANDLER_NOT_READY
  | AT_ERR_NOT_CONSUMED
  | AT_ERR_CMD_NOT_FOUND
  | AT_ERR_RECV_NOT_MATCH
  | AT_ERR_OTHERS
  deriving DecidableEq

/-- `at_cmd_set_t` (AT_handler.h): one command-table entry; parse-callback
slots are identity tags, `none` = NULL slot.  The opaque `arg` pointer is
irrelevant to the claims and omitted. -/
structure at_cmd_set_t where
  at_func : ℕ
  send : List Char
  receive_count : ℕ
  pf_at_recv_parse : List (Option ℕ)
  deriving DecidableEq

/-- `at_trans_callback_t` (AT_handler.c call sites / spec §3). -/
structure at_trans_callback_t where
  pf_at_recv_parse : List (Option ℕ)
  arg : ℕ
  holder : ℕ
  receive_count : ℕ
  deriving DecidableEq

/-- `send_info_t` (AT_handler.c:77): tagged union of the pending send. -/
inductive send_info_t where
  | cmdEvent (cmd_entry : at_cmd_set_t)
  | transparentEvent (callback : at_trans_callback_t)
  deriving DecidableEq

/-- Modelled from the spec: `AT_SEND_LEN_MAX`, the size of the fixed
send-format buffer (§4.5); the constant's definition is in a header
revision missing from src/, the in-repo header's `AT_CMD_LEN_MAX` is 128. -/
def AT_SEND_LEN_MAX : ℕ := 128

/-- Modelled from the spec: `MAX_RECV_CNT_OF_TRANS_SEND` (§3, §4.5) is
missing from src/; the device handler registers two transparent parse
slots (WAPI_M0804C.c:812), so the bound is at least 2; 2 is used. -/
def MAX_RECV_CNT_OF_TRANS_SEND : ℕ := 2

/-- Modelled from the spec: `MAX_RECV_CNT_OF_CMD_SEND` (§4.5) is missing
from src/; the in-repo header's `MAX_RECV_CNT_OF_ONCE_SEND` is 1 and every
command-table entry uses receive count 1. -/
def MAX_RECV_CNT_OF_CMD_SEND : ℕ := 1

/-- The fields of `at_priv_data_t` (AT_handler.c:88) that the claims
exercise: the binary send-feedback semaphore (`true` = available), the
pending-send record, the remaining-receive counter and the send-format
buffer contents. -/
structure at_priv_data_t where
  semaAvailable : Bool
  send_info : Option send_info_t
  remain_receive_count : ℕ
  send_buf : List ℕ
  deriving DecidableEq

/-- Result of one AT send call: status, updated private state, the list of
`pf_uart_write` transmissions it performed, and whether control reached
the `vsnprintf` formatting step (for `at_cmd_send_impl`) respectively the
hex-encoding step (unused here). -/
structure at_send_result where
  status : at_status
  st : at_priv_data_t
  uart_writes : List (List ℕ)
  reached_format : Bool
  deriving DecidableEq

/-- Linear scan of the command table for a function id
(AT_handler.c:183): first match wins. -/
def at_cmd_table_find (table : List at_cmd_set_t) (at_func : ℕ) : Option at_cmd_set_t :=
  table.find? (fun e => e.at_func == at_func)

/-- `at_cmd_send_impl` (AT_handler.c:167) for an initialized handler
instance (the NULL-self / not-inited guards return before touching any
state and are outside the modelled state space).  Faithful ordering: table
lookup, placeholder count, variadic count, count check, `vsnprintf` into
`send_buf` (truncated to the buffer bound), length check, zero-timeout
semaphore take, pending-send bookkeeping, UART write.  The argument list
is the physical variadic list, i.e. it ends with `va_arg.marker` appended
by the `AT_CMD_SEND` macro. -/
def at_cmd_send_impl (table : List at_cmd_set_t) (at_func : ℕ) (args : List va_arg)
    (st : at_priv_data_t) : at_send_result :=
  match at_cmd_table_find table at_func with
  | none => ⟨at_status.AT_ERR_CMD_NOT_FOUND, st, [], false⟩
  | some cmd_entry =>
      let expected_param_count := count_placeholder cmd_entry.send
      let actual_param_count := count_va_args expected_param_count args
      if actual_param_count ≠ expected_param_count then
        ⟨at_status.AT_ERR_PARAM_INVALID, st, [], false⟩
      else
        let formatted := at_vsnprintf cmd_entry.send args
        let st1 := {st with send_buf := formatted.take (AT_SEND_LEN_MAX - 1)}
        if AT_SEND_LEN_MAX ≤ formatted.length then
          ⟨at_status.AT_ERR_OTHERS, st1, [], true⟩
        else if st.semaAvailable = false then
          ⟨at_status.AT_ERR_NOT_CONSUMED, st1, [], true⟩
        else
          ⟨at_status.AT_OK,
           {st1 with semaAvailable := false,
                     send_info := some (send_info_t.cmdEvent cmd_entry),
                     remain_receive_count := cmd_entry.receive_count},
           [formatted], true⟩

/-- `at_trans_send` (AT_handler.c:239) for an initialized instance.
Zero-timeout semaphore take first; with a callback whose slot 0 is
non-NULL the receive count is validated and recorded; the data is written
once; without a callback the semaphore is released again after the write
(fire-and-forget).  `IS_ENABLE_SEND_BUF_PROTECTED` is not defined in the
repository, so the caller's buffer is written directly. -/
def at_trans_send (st : at_priv_data_t) (data : List ℕ)
    (callback : Option at_trans_callback_t) : at_send_result :=
  if st.semaAvailable = false then
    ⟨at_status.AT_ERR_NOT_CONSUMED, st, [], false⟩
  else
    match callback with
    | some cb =>
        if (cb.pf_at_recv_parse.getD 0 none).isSome then
          let recv_count := if cb.receive_count = 0 then 1 else cb.receive_count
          if MAX_RECV_CNT_OF_TRANS_SEND < recv_count then
            ⟨at_status.AT_ERR_PARAM_INVALID, st, [], false⟩
          else if (List.range recv_count).any
              (fun i => (cb.pf_at_recv_parse.getD i none).isNone) then
            ⟨at_status.AT_ERR_PARAM_INVALID, st, [], false⟩
          else
            ⟨at_status.AT_OK,
             {st with semaAvailable := false,
                      send_info := some (send_info_t.transparentEvent cb),
                      remain_receive_count := recv_count},
             [data], false⟩
        else ⟨at_status.AT_OK, st, [data], false⟩
    | none => ⟨at_status.AT_OK, st, [data], false⟩

/-- `wapi_status_t` (WAPI_M0804C.h). -/
inductive wapi_status where
  | WAPI_OK
  | WAPI_ERR_PARAM_INVALID
  | WAPI_ERR_HANDLER_NOT_READY
  | WAPI_ERR_SEND_NOT_READY
  | WAPI_ERR_MISS_CERT
  | WAPI_ERR_CMD_NOT_FOUND
  | WAPI_ERR_RECV_NOT_MATCH
  | WAPI_ERR_OTHERS
  deriving DecidableEq

/-- `CUR_SOCKET` (WAPI_M0804C.c:27). -/
def CUR_SOCKET : ℕ := 1

/-- `SEND_BUF_SIZE` (WAPI_M0804C.c:25). -/
def SEND_BUF_SIZE : ℕ := 128

/-- Identity tag for the `check_connect` parse callback (WAPI_M0804C.c:725). -/
def CHECK_CONNECT_CB : ℕ := 1

/-- Identity tag for the `send_recv_cb` parse callback (WAPI_M0804C.c:767). -/
def SEND_RECV_CB : ℕ := 2

/-- `nibble_to_hex_char` (WAPI_M0804C.c:673): '0'..'9' then uppercase
'A'..'F', and 'H' for an impossible nibble. -/
def nibble_to_hex_char (nibble : ℕ) : ℕ :=
  if nibble < 10 then nibble + 48
  else if nibble < 16 then nibble + 65 - 10
  else 72

/-- Loop of `byte_array_to_hex_string` (WAPI_M0804C.c:695), recursing on
`pos` counting down to 0.  Odd positions store the low nibble
(`source[byte_idx] & 0x0F`); even positions store the high nibble
(`(source[byte_idx] >> 4) & 0x0F`) and step `byte_idx` down unless it is
already 0.  The destination is a raw byte store. -/
def hex_go (source : List ℕ) : ℕ → ℕ → (ℕ → ℕ) → (ℕ → ℕ)
  | 0, byte_idx, dest =>
      fun a => if a = 0 then nibble_to_hex_char (source.getD byte_idx 0 / 16 % 16) else dest a
  | pos + 1, byte_idx, dest =>
      if (pos + 1) % 2 ≠ 0 then
        hex_go source pos byte_idx
          (fun a => if a = pos + 1 then nibble_to_hex_char (source.getD byte_idx 0 % 16) else dest a)
      else
        hex_go source pos (if byte_idx ≠ 0 then byte_idx - 1 else byte_idx)
          (fun a => if a = pos + 1 then nibble_to_hex_char (source.getD byte_idx 0 / 16 % 16) else dest a)

/-- Initial write position `source_len * 2 - 1` of `byte_array_to_hex_string`
(WAPI_M0804C.c:691), with the uint16 wraparound made explicit: for
`source_len = 0` this is 65535, not -1. -/
def hex_init_pos (source_len : ℕ) : ℕ := (2 * source_len + 65536 - 1) % 65536

/-- Initial `byte_idx = source_len - 1` (WAPI_M0804C.c:692), a uint8. -/
def hex_init_byte_idx (source_len : ℕ) : ℕ := (source_len + 256 - 1) % 256

/-- `byte_array_to_hex_string` (WAPI_M0804C.c:689): returns the updated
destination store and the value written to `*dest_len`
(`source_len * 2` as a uint16). -/
def byte_array_to_hex_string (source : List ℕ) (dest : ℕ → ℕ) : (ℕ → ℕ) × ℕ :=
  (hex_go source (hex_init_pos source.length) (hex_init_byte_idx source.length) dest,
   2 * source.length % 65536)

/-- Canonical hex rendering of a byte string: `byte_array_to_hex_string`
run on a zeroed destination, read back over the reported length. -/
def hex_string_of (source : List ℕ) : List ℕ :=
  (List.range (byte_array_to_hex_string source (fun _ => 0)).2).map
    (byte_array_to_hex_string source (fun _ => 0)).1

/-- Expected content of hex output position `j`: hex digit of the low
nibble of byte `j / 2` at odd `j`, of the high nibble at even `j`. -/
def hex_digit (source : List ℕ) (j : ℕ) : ℕ :=
  if j % 2 ≠ 0 then nibble_to_hex_char (source.getD (j / 2) 0 % 16)
  else nibble_to_hex_char (source.getD (j / 2) 0 / 16 % 16)

/-- The fields of `m0804c_priv_data_t` (WAPI_M0804C.c:98) that the send
path touches: the send-ready flag, the `wapi_send_buf` byte store, and
the embedded AT handler state. -/
structure m0804c_priv_data_t where
  trans_send_flag : Bool
  wapi_send_buf : ℕ → ℕ
  at_state : at_priv_data_t

/-- Result of one device-handler send call; `reached_hex` records whether
control reached the `byte_array_to_hex_string` call. -/
structure wapi_send_result where
  status : wapi_status
  st : m0804c_priv_data_t
  uart_writes : List (List ℕ)
  reached_hex : Bool

/-- Sequential byte store write of a byte string starting at `base`
(models `snprintf` writing its output into the buffer). -/
def write_bytes (dest : ℕ → ℕ) (base : ℕ) : List ℕ → (ℕ → ℕ)
  | [] => dest
  | b :: rest => write_bytes (fun a => if a = base then b else dest a) (base + 1) rest

/-- `wapi_send_data` (WAPI_M0804C.c:784).  `buf = none` models a NULL
buffer pointer; for `some payload` the C `length` argument is
`payload.length`.  Faithful sequence: NULL/zero-length guard, `snprintf`
of the `"AT+NSEND,%d,1,"` command head (writing its terminating NUL),
first overflow check, hex encoding in place after the command head,
second overflow check, CR LF termination, one transparent send with the
two-slot callback `{check_connect, send_recv_cb}`. -/
def wapi_send_data (st : m0804c_priv_data_t) (buf : Option (List ℕ))
    (recv_parse_cb : Option ℕ) : wapi_send_result :=
  match buf with
  | none => ⟨wapi_status.WAPI_ERR_PARAM_INVALID, st, [], false⟩
  | some payload =>
      if payload.length = 0 then ⟨wapi_status.WAPI_ERR_PARAM_INVALID, st, [], false⟩
      else
        let command := at_vsnprintf (("AT+NSEND,%d,1,").toList) [va_arg.intArg (Int.ofNat CUR_SOCKET)]
        let command_len := command.length
        let buf1 := write_bytes st.wapi_send_buf 0 (command ++ [0])
        if SEND_BUF_SIZE ≤ command_len then
          ⟨wapi_status.WAPI_ERR_OTHERS, {st with wapi_send_buf := buf1}, [], false⟩
        else
          let hex := byte_array_to_hex_string payload (fun a => buf1 (command_len + a))
          let buf2 : ℕ → ℕ := fun a => if command_len ≤ a then hex.1 (a - command_len) else buf1 a
          let total_len := command_len + hex.2 + 2
          if SEND_BUF_SIZE < total_len then
            ⟨wapi_status.WAPI_ERR_OTHERS, {st with wapi_send_buf := buf2}, [], true⟩
          else
            let buf3 : ℕ → ℕ := fun a =>
              if a = total_len - 1 then 10 else if a = total_len - 2 then 13 else buf2 a
            let out := (List.range total_len).map buf3
            let callback : at_trans_callback_t :=
              ⟨[some CHECK_CONNECT_CB, some SEND_RECV_CB], recv_parse_cb.getD 0, 0, 2⟩
            let r := at_trans_send st.at_state out (some callback)
            ⟨if r.status = at_status.AT_OK then wapi_status.WAPI_OK else wapi_status.WAPI_ERR_OTHERS,
             {st with wapi_send_buf := buf3, at_state := r.st}, r.uart_writes, true⟩

/-- `wapi_send_data_without_response` (WAPI_M0804C.c:823): identical to
`wapi_send_data` except the single-slot callback `{check_connect}`. -/
def wapi_send_data_without_response (st : m0804c_priv_data_t)
    (buf : Option (List ℕ)) : wapi_send_result :=
  match buf with
  | none => ⟨wapi_status.WAPI_ERR_PARAM_INVALID, st, [], false⟩
  | some payload =>
      if payload.length = 0 then ⟨wapi_status.WAPI_ERR_PARAM_INVALID, st, [], false⟩
      else
        let command := at_vsnprintf (("AT+NSEND,%d,1,").toList) [va_arg.intArg (Int.ofNat CUR_SOCKET)]
        let command_len := command.length
        let buf1 := write_bytes st.wapi_send_buf 0 (command ++ [0])
        if SEND_BUF_SIZE ≤ command_len then
          ⟨wapi_status.WAPI_ERR_OTHERS, {st with wapi_send_buf := buf1}, [], false⟩
        else
          let hex := byte_array_to_hex_string payload (fun a => buf1 (command_len + a))
          let buf2 : ℕ → ℕ := fun a => if command_len ≤ a then hex.1 (a - command_len) else buf1 a
          let total_len := command_len + hex.2 + 2
          if SEND_BUF_SIZE < total_len then
            ⟨wapi_status.WAPI_ERR_OTHERS, {st with wapi_send_buf := buf2}, [], true⟩
          else
            let buf3 : ℕ → ℕ := fun a =>
              if a = total_len - 1 then 10 else if a = total_len - 2 then 13 else buf2 a
            let out := (List.range total_len).map buf3
            let callback : at_trans_callback_t := ⟨[some CHECK_CONNECT_CB], 0, 0, 1⟩
            let r := at_trans_send st.at_state out (some callback)
            ⟨if r.status = at_status.AT_OK then wapi_status.WAPI_OK else wapi_status.WAPI_ERR_OTHERS,
             {st with wapi_send_buf := buf3, at_state := r.st}, r.uart_writes, true⟩

/-- `m0804c_send` (WAPI_M0804C.c:1400) for an initialized instance: gated
on the send-ready flag. -/
def m0804c_send (st : m0804c_priv_data_t) (buf : Option (List ℕ))
    (recv_parse_cb : Option ℕ) : wapi_send_result :=
  if st.trans_send_flag then wapi_send_data st buf recv_parse_cb
  else ⟨wapi_status.WAPI_ERR_SEND_NOT_READY, st, [], false⟩

/-- `m0804c_send_without_response` (WAPI_M0804C.c:1412). -/
def m0804c_send_without_response (st : m0804c_priv_data_t)
    (buf : Option (List ℕ)) : wapi_send_result :=
  if st.trans_send_flag then wapi_send_data_without_response st buf
  else ⟨wapi_status.WAPI_ERR_SEND_NOT_READY, st, [], false⟩

/-- Loop of `wapi_upload_cert_file_common` (WAPI_M0804C.c:872).
`sema_ok i` is the oracle for whether `pf_sema_take(multi_send_syn_sema,
500)` succeeds before segment `i`; on failure the loop breaks without
sending.  Returns the `(offset, send_len)` of every transparent
transmission issued, in order.  The loop index is recovered from the
remaining fuel (`i = cnt - fuel`). -/
def upload_cert_loop (file_len cnt : ℕ) (sema_ok : ℕ → Bool) : ℕ → List (ℕ × ℕ)
  | 0 => []
  | fuel + 1 =>
      let i := cnt - (fuel + 1)
      let send_len := if i = cnt - 1 then file_len % 64 else 64
      if sema_ok i then (64 * i, send_len) :: upload_cert_loop file_len cnt sema_ok fuel
      else []

/-- `wapi_upload_cert_file_common` (WAPI_M0804C.c:872): segment count
`(file_len + 64 - 1) / 64` truncated to uint8, then the segment loop. -/
def wapi_upload_cert_file_common (file_len : ℕ) (sema_ok : ℕ → Bool) : List (ℕ × ℕ) :=
  upload_cert_loop file_len ((file_len + 64 - 1) / 64 % 256) sema_ok
    ((file_len + 64 - 1) / 64 % 256)

/-- `AT_ERR_REPEAT_CNT` (WAPI_M0804C.c:21). -/
def AT_ERR_REPEAT_CNT : ℕ := 4

/-- `WAPI_PROCESS_RETRY_MAX` (WAPI_M0804C.c:22). -/
def WAPI_PROCESS_RETRY_MAX : ℕ := 2

/-- `WAPI_PROCESS_FAIL_MAX` (WAPI_M0804C.c:23). -/
def WAPI_PROCESS_FAIL_MAX : ℕ := 3

/-- Observable events of the process engine, in execution order:
step-function invocations, completion callbacks, inter-step delays and the
process-group lifecycle hooks of `generic_wapi_thread`. -/
inductive wapi_event where
  | stepInvoke (index : ℕ)
  | stepCpl (index : ℕ) (ok : Bool)
  | intervalDelay (ticks : ℕ)
  | startHook
  | successHookPub
  | successHook
  | retryHook
  | errHook
  deriving DecidableEq

/-- `wapi_process_t` (WAPI_M0804C.c:85) without the function pointers
(step invocation is recorded as an event instead). -/
structure wapi_process_t where
  recv_timeout_tick : ℕ
  process_interval_tick : ℕ
  deriving DecidableEq

/-- Gate state threaded through the process engine: the process-wide
mutual-exclusion semaphore (`true` = available) and the index of the next
`recv_state_queue` wait, used to consult the response oracle. -/
structure process_gate_state where
  sema : Bool
  oidx : ℕ
  deriving DecidableEq

/-- Inner retry loop of `table_process` (WAPI_M0804C.c:941, the `j`-loop):
invoke the step, wait up to the step timeout on the receive-state queue
(`oracle`: `none` = timeout, `some b` = queue item with `is_success = b`);
on success run the completion callback, the inter-step delay, release the
gate and stop; on explicit failure apply the inter-step delay and retry;
on timeout retry.  Returns (success, gate state, events). -/
def step_retry_loop (oracle : ℕ → Option Bool) (step : wapi_process_t) (index : ℕ) :
    ℕ → process_gate_state → Bool × process_gate_state × List wapi_event
  | 0, g => (false, g, [])
  | fuel + 1, g =>
      match oracle g.oidx with
      | some true =>
          (true, ⟨true, g.oidx + 1⟩,
           [wapi_event.stepInvoke index, wapi_event.stepCpl index true] ++
             (if step.process_interval_tick ≠ 0 then
                [wapi_event.intervalDelay step.process_interval_tick] else []))
      | some false =>
          let r2 := step_retry_loop oracle step index fuel ⟨g.sema, g.oidx + 1⟩
          (r2.1, r2.2.1,
           [wapi_event.stepInvoke index] ++
             (if step.process_interval_tick ≠ 0 then
                [wapi_event.intervalDelay step.process_interval_tick] else []) ++ r2.2.2)
      | none =>
          let r2 := step_retry_loop oracle step index fuel ⟨g.sema, g.oidx + 1⟩
          (r2.1, r2.2.1, [wapi_event.stepInvoke index] ++ r2.2.2)

/-- Step iteration of `table_process` (WAPI_M0804C.c:926): per step,
zero-timeout take of the process-sync semaphore (failure goes to the exit
path), then the 4-attempt retry loop; attempt exhaustion goes to the exit
path, which runs the completion callback with error and releases the
gate. -/
def table_process_go (oracle : ℕ → Option Bool) :
    List wapi_process_t → ℕ → process_gate_state →
      wapi_status × process_gate_state × List wapi_event
  | [], _, g => (wapi_status.WAPI_OK, g, [])
  | step :: rest, index, g =>
      if g.sema = false then
        (wapi_status.WAPI_ERR_OTHERS, ⟨true, g.oidx⟩, [wapi_event.stepCpl index false])
      else
        let afterTry := step_retry_loop oracle step index AT_ERR_REPEAT_CNT ⟨false, g.oidx⟩
        if afterTry.1 then
          let r2 := table_process_go oracle rest (index + 1) afterTry.2.1
          (r2.1, r2.2.1, afterTry.2.2 ++ r2.2.2)
        else
          (wapi_status.WAPI_ERR_OTHERS, ⟨true, afterTry.2.1.oidx⟩,
           afterTry.2.2 ++ [wapi_event.stepCpl index false])

/-- `table_process` (WAPI_M0804C.c:926) including its empty-table guard. -/
def table_process (oracle : ℕ → Option Bool) (table : List wapi_process_t)
    (g : process_gate_state) : wapi_status × process_gate_state × List wapi_event :=
  if table.isEmpty then (wapi_status.WAPI_ERR_PARAM_INVALID, g, [])
  else table_process_go oracle table 0 g

/-- Retry loop of `generic_process` (WAPI_M0804C.c:998): run
`table_process` up to the remaining fuel, stopping at the first full-table
success; returns the status of the last run. -/
def generic_process_go (oracle : ℕ → Option Bool) (table : List wapi_process_t) :
    ℕ → process_gate_state → wapi_status × process_gate_state × List wapi_event
  | 0, g => (wapi_status.WAPI_ERR_OTHERS, g, [])
  | fuel + 1, g =>
      let r := table_process oracle table g
      if r.1 = wapi_status.WAPI_OK then r
      else if fuel = 0 then r
      else
        let r2 := generic_process_go oracle table fuel r.2.1
        (r2.1, r2.2.1, r.2.2 ++ r2.2.2)

/-- `generic_process` (WAPI_M0804C.c:998) with
`WAPI_PROCESS_RETRY_MAX = 2` table attempts. -/
def generic_process (oracle : ℕ → Option Bool) (table : List wapi_process_t)
    (g : process_gate_state) : wapi_status × process_gate_state × List wapi_event :=
  generic_process_go oracle table WAPI_PROCESS_RETRY_MAX g

/-- One iteration of the `while(1)` loop of `generic_wapi_thread`
(WAPI_M0804C.c:1066), with `fail_cnt` carried between iterations (0 when
the thread starts).  The concrete callback groups all provide a retry
hook, so the retry branch fires `pf_process_retry`.  Returns
(process status, new fail_cnt, gate state, events). -/
def generic_wapi_thread_iter (oracle : ℕ → Option Bool) (table : List wapi_process_t)
    (fail_cnt : ℕ) (g : process_gate_state) :
    wapi_status × ℕ × process_gate_state × List wapi_event :=
  let r := generic_process oracle table g
  if r.1 = wapi_status.WAPI_OK then
    (r.1, 0, r.2.1,
     wapi_event.startHook :: r.2.2 ++ [wapi_event.successHookPub, wapi_event.successHook])
  else if fail_cnt < WAPI_PROCESS_FAIL_MAX then
    (r.1, fail_cnt + 1, r.2.1, wapi_event.startHook :: r.2.2 ++ [wapi_event.retryHook])
  else
    (r.1, fail_cnt, r.2.1, wapi_event.startHook :: r.2.2 ++ [wapi_event.errHook])

/-- Number of invocations of step `index` recorded in an event list. -/
def count_step_invoke (index : ℕ) (evs : List wapi_event) : ℕ :=
  evs.countP (fun e => match e with
    | wapi_event.stepInvoke i => i == index
    | _ => false)

/-- `parse_info_t` (uart_proto.c:98). -/
structure parse_info_t where
  fun_code : ℕ
  payload : List ℕ
  deriving DecidableEq

/-- Net effect of one invocation of a framing strategy
(`parse_function_code_mode` or `parse_transparent_mode`, uart_proto.c:240
and 305) on the linearized pending window: bytes consumed, frames
enqueued to the worker queue, and whether the strategy reset
`parse_fail_count` to 0 (the transparent strategy always does; the
function-code strategy does when at least one frame parses OK). -/
structure strat_result where
  bytes_used : ℕ
  frames : List parse_info_t
  cleared_fail_count : Bool

/-- The counter fields of `uart_proto_priv_data_t` (uart_proto.c:79):
`header`/`tail` are uint32 byte counters, `data_counter` the last
observed DMA position (uint16), `parse_fail_count` the consecutive
no-progress counter. -/
structure uart_proto_priv_data_t where
  header : ℕ
  tail : ℕ
  data_counter : ℕ
  parse_fail_count : ℕ
  deriving DecidableEq

/-- Result of one `notify_isr_cb` call: the updated counters, the frames
enqueued for the worker thread, and the `pf_set_counter` calls issued
(re-arming the DMA counter). -/
structure notify_result where
  st : uart_proto_priv_data_t
  frames : List parse_info_t
  set_counter_calls : List ℕ
  deriving DecidableEq

/-- Linearize step of `notify_isr_cb` (uart_proto.c:523): with pending
`length > 0`, a window with `previous_index ≤ current_index` or with
`current_index = 0` is parsed in place from the ring buffer (the
`NON_COPY_WHEN_NON_WRAP` build, no copy, second component `false`); a
wrapped window is copied as two segments into the linear scratch buffer
(second component `true`).  Returns the byte window handed to the framing
strategy. -/
def linearize (recv_buf : List ℕ) (previous_index current_index : ℕ) : List ℕ × Bool :=
  let n := recv_buf.length
  let length := (current_index + n - previous_index) % n
  if 0 < length then
    if previous_index ≤ current_index ∨ current_index = 0 then
      ((recv_buf.drop previous_index).take length, false)
    else
      (recv_buf.drop previous_index ++ recv_buf.take current_index, true)
  else ([], false)

/-- Logical content of the ring-buffer window of `len` bytes starting at
index `start` (modulo the buffer size). -/
def ring_window (recv_buf : List ℕ) (start len : ℕ) : List ℕ :=
  (List.range len).map (fun k => recv_buf.getD ((start + k) % recv_buf.length) 0)

/-- `notify_isr_cb` (uart_proto.c:481).  `counter` is the value returned
by `pf_get_counter()` (DMA remaining-transfer count), `threshold` the
configured `num_notify_isr_cb_call`, `strat` the active framing strategy
applied to the linearized pending window.  Faithful sequence inside the
critical section: increment `parse_fail_count`; compute indices; advance
`header`; spurious-notification early exit; overflow guard calling
`reset_rx_state` (zero all counters, re-arm a full-buffer DMA reception);
record `data_counter`; linearize; parse; advance `tail`; threshold reset. -/
def notify_isr_cb (threshold : ℕ) (strat : List ℕ → strat_result) (recv_buf : List ℕ)
    (counter : ℕ) (s : uart_proto_priv_data_t) : notify_result :=
  let n := recv_buf.length
  let pf1 := s.parse_fail_count + 1
  let previous_index := s.tail % n
  let current_index := n - counter
  let header1 := s.header + (current_index + n - s.data_counter) % n
  if header1 = s.tail then
    ⟨⟨header1, s.tail, s.data_counter, pf1⟩, [], []⟩
  else if n ≤ header1 - s.tail then
    ⟨⟨0, 0, 0, 0⟩, [], [n]⟩
  else
    let r := strat (linearize recv_buf previous_index current_index).1
    let pf2 := if r.cleared_fail_count then 0 else pf1
    if threshold ≤ pf2 then
      ⟨⟨0, 0, 0, 0⟩, r.frames, [n]⟩
    else
      ⟨⟨header1, s.tail + r.bytes_used, current_index, pf2⟩, r.frames, []⟩

/-- States of the UART protocol counters reachable from the freshly
initialized state through `notify_isr_cb` calls with a sane framing
strategy (one never consuming more bytes than it is handed) and a DMA
counter value in its hardware range `1 ≤ counter ≤ n`. -/
inductive uart_reachable (n threshold : ℕ) : uart_proto_priv_data_t → Prop where
  | init : uart_reachable n threshold ⟨0, 0, 0, 0⟩
  | step {s : uart_proto_priv_data_t} (strat : List ℕ → strat_result)
      (recv_buf : List ℕ) (counter : ℕ)
      (hbuf : recv_buf.length = n) (hc1 : 1 ≤ counter) (hc2 : counter ≤ n)
      (hsane : ∀ w, (strat w).bytes_used ≤ w.length)
      (hs : uart_reachable n threshold s) :
      uart_reachable n threshold (notify_isr_cb threshold strat recv_buf counter s).st

/-- Inductive invariant of the UART protocol counters: the consumer never
passes the producer, the pending span is below the buffer size, the
recorded DMA position is a valid index and is congruent to the pending
span shifted by the consumed position. -/
def uart_inv (n : ℕ) (s : uart_proto_priv_data_t) : Prop :=
  s.tail ≤ s.header ∧ s.header - s.tail < n ∧ s.data_counter < n ∧
    (s.header - s.tail + s.tail % n) % n = s.data_counter

/-- `funcode_node_t` (uart_proto.c:114): function code, opaque argument
and callback tag (`none` = NULL callback). -/
structure funcode_node_t where
  fun_code : ℕ
  arg : ℕ
  cb : Option ℕ
  deriving DecidableEq

/-- Sorted-insert loop of `subscribe_funcode` (uart_proto.c:167): the
sentinel-terminated circular list is modelled as the Lean list of nodes in
traversal order; the walk stops at the first node whose code exceeds the
new code and the new node is spliced in before it (after all nodes with a
smaller or equal code). -/
def subscribe_funcode (l : List funcode_node_t) (node : funcode_node_t) : List funcode_node_t :=
  match l with
  | [] => [node]
  | head :: rest =>
      if node.fun_code < head.fun_code then node :: head :: rest
      else head :: subscribe_funcode rest node

/-- Registry built by subscribing `params` in order into an initially
empty list (uart_proto.c:449 initializes the sentinel empty). -/
def build_funcode_registry (params : List funcode_node_t) : List funcode_node_t :=
  params.foldl subscribe_funcode []

/-- `handle_function_code_parse` (uart_proto.c:282): walk from the list
head, stop at the first node whose code exceeds the frame's code, invoke
every node whose code matches and whose callback is non-NULL.  Returns
the invoked nodes in invocation order. -/
def handle_function_code_parse (l : List funcode_node_t) (fun_code : ℕ) : List funcode_node_t :=
  match l with
  | [] => []
  | node :: rest =>
      if fun_code < node.fun_code then []
      else if node.fun_code = fun_code ∧ node.cb.isSome then
        node :: handle_function_code_parse rest fun_code
      else handle_function_code_parse rest fun_code

/-- The 18-entry `m0804c_at_table` (WAPI_M0804C.c:212); parse-callback
tags are positive and distinct per parser identity, matching the table's
shape (every entry has receive count 1 and one non-NULL parser). -/
def m0804c_at_table : List at_cmd_set_t :=
  [⟨0, ("AT\r\n").toList, 1, [some 10]⟩,
   ⟨1, ("ATI\r\n").toList, 1, [some 10]⟩,
   ⟨2, ("AT+ECHO=%d\r\n").toList, 1, [some 10]⟩,
   ⟨3, ("AT+BAND=%d\r\n").toList, 1, [some 10]⟩,
   ⟨4, ("AT+REBOOT\r\n").toList, 1, [some 11]⟩,
   ⟨5, ("AT+TXPWR=0,22\r\n").toList, 1, [some 10]⟩,
   ⟨6, ("AT+SETDP=%d\r\n").toList, 1, [some 10]⟩,
   ⟨7, ("AT+WSDISCNCT\r\n").toList, 1, [some 10]⟩,
   ⟨8, ("AT+WFIXIP=%d,%d.%d.%d.%d,%d.%d.%d.%d,%d.%d.%d.%d\r\n").toList, 1, [some 10]⟩,
   ⟨9, ("AT+WAPICT,%d,%s\r\n").toList, 1, [some 10]⟩,
   ⟨10, ("AT+WAPICT,%d,%s,%s\r\n").toList, 1, [some 10]⟩,
   ⟨11, ("AT+WAPICT=?\r\n").toList, 1, [some 12]⟩,
   ⟨12, ("AT+NCRECLNT=%s,%d.%d.%d.%d,%d,%d,%d,%d,%d,%d,%d\r\n").toList, 1, [some 13]⟩,
   ⟨13, ("AT+NRECV,%d,%d,%d\r\n").toList, 1, [some 10]⟩,
   ⟨14, ("AT+NSEND,%d,%d,").toList, 1, [some 10]⟩,
   ⟨15, ("AT+UPCERT=%s\r\n").toList, 1, [some 14]⟩,
   ⟨16, ("AT+UPCERT=?\r\n").toList, 1, [some 10]⟩,
   ⟨17, ("AT+NSTOP,%d\r\n").toList, 1, [some 10]⟩]

/-! Theorems. -/

theorem count_va_args_loop_append_marker (k : ℕ) :
    ∀ (l : List va_arg) (cnt : ℕ), va_arg.marker ∉ l → cnt ≤ k + 1 →
      count_va_args_loop k cnt (l ++ [va_arg.marker]) = min (cnt + l.length) (k + 1) := by
  intro l
  induction l with
  | nil =>
      intro cnt _ hcnt
      by_cases hc : cnt < k + 1 <;> simp [count_va_args_loop, hc] <;> omega
  | cons a rest ih =>
      intro cnt h hcnt
      have ha : a ≠ va_arg.marker := fun hh => h (hh ▸ List.mem_cons_self a rest)
      have hrest : va_arg.marker ∉ rest := fun hh => h (List.mem_cons_of_mem a hh)
      by_cases hc : cnt < k + 1
      · cases a with
        | marker => exact absurd rfl ha
        | intArg n =>
            rw [List.cons_append]
            simp only [count_va_args_loop, hc, if_pos]
            rw [ih (cnt + 1) hrest (by omega)]
            simp [List.length_cons]
            omega
        | strArg s =>
            rw [List.cons_append]
            simp only [count_va_args_loop, hc, if_pos]
            rw [ih (cnt + 1) hrest (by omega)]
            simp [List.length_cons]
            omega
      · rw [List.cons_append]
        simp only [count_va_args_loop, hc, if_neg, if_false]
        omega

theorem count_va_args_append_marker (k : ℕ) (l : List va_arg) (h : va_arg.marker ∉ l) :
    count_va_args k (l ++ [va_arg.marker]) = min l.length (k + 1) := by
  have := count_va_args_loop_append_marker k l 0 h (by omega)
  simpa [count_va_args] using this

/-- C1: the claim states the final certificate segment has length
`L mod 64`, or a full 64 when L is an exact multiple of 64.  The code
(WAPI_M0804C.c:885) sets the final segment's length to `file_len % 64`
unconditionally, so for an exact multiple the final segment is
transmitted with length 0 and the last 64 bytes of the file are never
sent, although the ceiling-division segment count was computed to cover
them: at L = 64 the single segment is (offset 0, length 0); at L = 128
the segments are (0, 64) and (64, 0), dropping bytes 64..127.  For
non-multiples (65, 63) segmentation matches the claim. -/
theorem upload_cert_exact_multiple_sends_zero_final_segment :
    wapi_upload_cert_file_common 64 (fun _ => true) = [(0, 0)] ∧
    wapi_upload_cert_file_common 128 (fun _ => true) = [(0, 64), (64, 0)] ∧
    wapi_upload_cert_file_common 65 (fun _ => true) = [(0, 64), (64, 1)] ∧
    wapi_upload_cert_file_common 63 (fun _ => true) = [(0, 63)] := by
  refine ⟨by decide, by decide, by decide, by decide⟩

/-- C2: for a command-table entry whose template holds k `%s`/`%d`
placeholders, a templated send with exactly k variadic arguments before
the `0xDEADBEEF` sentinel passes the argument-count check and reaches the
formatting step, while k - 1 or k + 1 arguments yield
`AT_ERR_PARAM_INVALID` with no UART transmission and no state change. -/
theorem at_cmd_argument_count_check (table : List at_cmd_set_t) (at_func : ℕ)
    (cmd_entry : at_cmd_set_t) (st : at_priv_data_t) (argList : List va_arg)
    (hfind : at_cmd_table_find table at_func = some cmd_entry)
    (hnomark : va_arg.marker ∉ argList) :
    (argList.length = count_placeholder cmd_entry.send →
      (at_cmd_send_impl table at_func (argList ++ [va_arg.marker]) st).reached_format = true) ∧
    (argList.length + 1 = count_placeholder cmd_entry.send →
      (at_cmd_send_impl table at_func (argList ++ [va_arg.marker]) st).status =
          at_status.AT_ERR_PARAM_INVALID ∧
        (at_cmd_send_impl table at_func (argList ++ [va_arg.marker]) st).uart_writes = [] ∧
        (at_cmd_send_impl table at_func (argList ++ [va_arg.marker]) st).st = st) ∧
    (argList.length = count_placeholder cmd_entry.send + 1 →
      (at_cmd_send_impl table at_func (argList ++ [va_arg.marker]) st).status =
          at_status.AT_ERR_PARAM_INVALID ∧
        (at_cmd_send_impl table at_func (argList ++ [va_arg.marker]) st).uart_writes = [] ∧
        (at_cmd_send_impl table at_func (argList ++ [va_arg.marker]) st).st = st) := by
  have hcount := count_va_args_append_marker (count_placeholder cmd_entry.send) argList hnomark
  refine ⟨?_, ?_, ?_⟩
  · intro hlen
    have heq : count_va_args (count_placeholder cmd_entry.send) (argList ++ [va_arg.marker]) =
        count_placeholder cmd_entry.send := by omega
    simp only [at_cmd_send_impl, hfind, heq, ne_eq, not_true_eq_false, if_false, ite_false]
    split_ifs <;> rfl
  · intro hlen
    have heq : count_va_args (count_placeholder cmd_entry.send) (argList ++ [va_arg.marker]) ≠
        count_placeholder cmd_entry.send := by omega
    simp [at_cmd_send_impl, hfind, heq]
  · intro hlen
    have heq : count_va_args (count_placeholder cmd_entry.send) (argList ++ [va_arg.marker]) ≠
        count_placeholder cmd_entry.send := by omega
    simp [at_cmd_send_impl, hfind, heq]

theorem at_cmd_argument_count_check_witness :
    at_cmd_table_find m0804c_at_table 2 =
      some ⟨2, ("AT+ECHO=%d\r\n").toList, 1, [some 10]⟩ ∧
    (at_cmd_send_impl m0804c_at_table 2 [va_arg.marker]
        ⟨true, none, 0, []⟩).status = at_status.AT_ERR_PARAM_INVALID ∧
    (at_cmd_send_impl m0804c_at_table 2 [va_arg.intArg 0, va_arg.marker]
        ⟨true, none, 0, []⟩).reached_format = true :=
  ⟨by decide,
   ((at_cmd_argument_count_check m0804c_at_table 2
      ⟨2, ("AT+ECHO=%d\r\n").toList, 1, [some 10]⟩ ⟨true, none, 0, []⟩ []
      (by decide) (by decide)).2.1 (by decide)).1,
   (at_cmd_argument_count_check m0804c_at_table 2
      ⟨2, ("AT+ECHO=%d\r\n").toList, 1, [some 10]⟩ ⟨true, none, 0, []⟩ [va_arg.intArg 0]
      (by decide) (by decide)).1 (by decide)⟩

/-- C4: with the send-feedback semaphore held (transaction outstanding),
a second templated send with a valid command and matching argument count
returns `AT_ERR_NOT_CONSUMED` and leaves the pending-send record and the
remaining-receive counter untouched, performing no transmission; a second
transparent send likewise returns `AT_ERR_NOT_CONSUMED` with the whole
private state unchanged and no transmission. -/
theorem at_second_send_not_consumed (table : List at_cmd_set_t) (at_func : ℕ)
    (cmd_entry : at_cmd_set_t) (st : at_priv_data_t) (argList : List va_arg)
    (data : List ℕ) (callback : Option at_trans_callback_t)
    (hsema : st.semaAvailable = false)
    (hfind : at_cmd_table_find table at_func = some cmd_entry)
    (hnomark : va_arg.marker ∉ argList)
    (hlen : argList.length = count_placeholder cmd_entry.send)
    (hfits : (at_vsnprintf cmd_entry.send (argList ++ [va_arg.marker])).length <
        AT_SEND_LEN_MAX) :
    ((at_cmd_send_impl table at_func (argList ++ [va_arg.marker]) st).status =
        at_status.AT_ERR_NOT_CONSUMED ∧
      (at_cmd_send_impl table at_func (argList ++ [va_arg.marker]) st).st.send_info =
        st.send_info ∧
      (at_cmd_send_impl table at_func (argList ++ [va_arg.marker]) st).st.remain_receive_count =
        st.remain_receive_count ∧
      (at_cmd_send_impl table at_func (argList ++ [va_arg.marker]) st).uart_writes = []) ∧
    at_trans_send st data callback = ⟨at_status.AT_ERR_NOT_CONSUMED, st, [], false⟩ := by
  have hcount := count_va_args_append_marker (count_placeholder cmd_entry.send) argList hnomark
  have heq : count_va_args (count_placeholder cmd_entry.send) (argList ++ [va_arg.marker]) =
      count_placeholder cmd_entry.send := by omega
  have hnofit : ¬ AT_SEND_LEN_MAX ≤
      (at_vsnprintf cmd_entry.send (argList ++ [va_arg.marker])).length := by omega
  constructor
  · simp [at_cmd_send_impl, hfind, heq, hnofit, hsema]
  · simp [at_trans_send, hsema]

theorem at_second_send_not_consumed_witness :
    (⟨false, none, 0, []⟩ : at_priv_data_t).semaAvailable = false ∧
    (at_cmd_send_impl m0804c_at_table 2 [va_arg.intArg 0, va_arg.marker]
        ⟨false, none, 0, []⟩).status = at_status.AT_ERR_NOT_CONSUMED ∧
    at_trans_send ⟨false, none, 0, []⟩ [1, 2] none =
      ⟨at_status.AT_ERR_NOT_CONSUMED, ⟨false, none, 0, []⟩, [], false⟩ :=
  (fun h => ⟨rfl, h.1.1, h.2⟩)
    (at_second_send_not_consumed m0804c_at_table 2
      ⟨2, ("AT+ECHO=%d\r\n").toList, 1, [some 10]⟩ ⟨false, none, 0, []⟩
      [va_arg.intArg 0] [1, 2] none rfl (by decide) (by decide) (by decide) (by decide))

/-- C9: formatting precedes the semaphore acquisition in
`at_cmd_send_impl` (vsnprintf at AT_handler.c:211, semaphore take at
line 220), so a valid templated send issued while the send-feedback
semaphore is unavailable returns `AT_ERR_NOT_CONSUMED` only after the
shared send-format buffer has already been overwritten with the newly
formatted command string; the pending-send record and the
remaining-receive counter are left unchanged. -/
theorem at_send_overwrites_buffer_before_gate (table : List at_cmd_set_t) (at_func : ℕ)
    (cmd_entry : at_cmd_set_t) (st : at_priv_data_t) (argList : List va_arg)
    (hsema : st.semaAvailable = false)
    (hfind : at_cmd_table_find table at_func = some cmd_entry)
    (hnomark : va_arg.marker ∉ argList)
    (hlen : argList.length = count_placeholder cmd_entry.send)
    (hfits : (at_vsnprintf cmd_entry.send (argList ++ [va_arg.marker])).length <
        AT_SEND_LEN_MAX) :
    (at_cmd_send_impl table at_func (argList ++ [va_arg.marker]) st).status =
        at_status.AT_ERR_NOT_CONSUMED ∧
      (at_cmd_send_impl table at_func (argList ++ [va_arg.marker]) st).st.send_buf =
        at_vsnprintf cmd_entry.send (argList ++ [va_arg.marker]) ∧
      (at_cmd_send_impl table at_func (argList ++ [va_arg.marker]) st).st.send_info =
        st.send_info ∧
      (at_cmd_send_impl table at_func (argList ++ [va_arg.marker]) st).st.remain_receive_count =
        st.remain_receive_count := by
  have hcount := count_va_args_append_marker (count_placeholder cmd_entry.send) argList hnomark
  have heq : count_va_args (count_placeholder cmd_entry.send) (argList ++ [va_arg.marker]) =
      count_placeholder cmd_entry.send := by omega
  have hnofit : ¬ AT_SEND_LEN_MAX ≤
      (at_vsnprintf cmd_entry.send (argList ++ [va_arg.marker])).length := by omega
  have htake : (at_vsnprintf cmd_entry.send (argList ++ [va_arg.marker])).take
      (AT_SEND_LEN_MAX - 1) = at_vsnprintf cmd_entry.send (argList ++ [va_arg.marker]) := by
    apply List.take_of_length_le
    have : AT_SEND_LEN_MAX = 128 := rfl
    omega
  simp [at_cmd_send_impl, hfind, heq, hnofit, hsema, htake]

theorem at_send_overwrites_buffer_before_gate_witness :
    (⟨false, none, 0, [9, 9, 9]⟩ : at_priv_data_t).semaAvailable = false ∧
    ((at_cmd_send_impl m0804c_at_table 2 [va_arg.intArg 0, va_arg.marker]
        ⟨false, none, 0, [9, 9, 9]⟩).status = at_status.AT_ERR_NOT_CONSUMED ∧
      (at_cmd_send_impl m0804c_at_table 2 [va_arg.intArg 0, va_arg.marker]
        ⟨false, none, 0, [9, 9, 9]⟩).st.send_buf =
        at_vsnprintf (("AT+ECHO=%d\r\n").toList) [va_arg.intArg 0, va_arg.marker] ∧
      (at_cmd_send_impl m0804c_at_table 2 [va_arg.intArg 0, va_arg.marker]
        ⟨false, none, 0, [9, 9, 9]⟩).st.send_info = none ∧
      (at_cmd_send_impl m0804c_at_table 2 [va_arg.intArg 0, va_arg.marker]
        ⟨false, none, 0, [9, 9, 9]⟩).st.remain_receive_count = 0) :=
  ⟨rfl,
   at_send_overwrites_buffer_before_gate m0804c_at_table 2
     ⟨2, ("AT+ECHO=%d\r\n").toList, 1, [some 10]⟩ ⟨false, none, 0, [9, 9, 9]⟩
     [va_arg.intArg 0] rfl (by decide) (by decide) (by decide) (by decide)⟩


theorem count_step_invoke_append (index : ℕ) (l1 l2 : List wapi_event) :
    count_step_invoke index (l1 ++ l2) =
      count_step_invoke index l1 + count_step_invoke index l2 :=
  List.countP_append _ _ _

theorem count_step_invoke_invoke_self (index : ℕ) :
    count_step_invoke index [wapi_event.stepInvoke index] = 1 := by
  simp [count_step_invoke]

theorem count_step_invoke_ite_delay (index t : ℕ) (c : Prop) [Decidable c] :
    count_step_invoke index (if c then [wapi_event.intervalDelay t] else []) = 0 := by
  split_ifs <;> simp [count_step_invoke]

theorem step_retry_loop_never_success (oracle : ℕ → Option Bool)
    (hno : ∀ i, oracle i ≠ some true) (step : wapi_process_t) (index : ℕ) :
    ∀ (fuel : ℕ) (g : process_gate_state),
      (step_retry_loop oracle step index fuel g).1 = false ∧
      (step_retry_loop oracle step index fuel g).2.1 = ⟨g.sema, g.oidx + fuel⟩ ∧
      count_step_invoke index (step_retry_loop oracle step index fuel g).2.2 = fuel ∧
      (∀ e ∈ (step_retry_loop oracle step index fuel g).2.2,
        e = wapi_event.stepInvoke index ∨ ∃ t, e = wapi_event.intervalDelay t) := by
  intro fuel
  induction fuel with
  | zero =>
      intro g
      simp [step_retry_loop, count_step_invoke]
  | succ n ih =>
      intro g
      obtain ⟨ih1, ih2, ih3, ih4⟩ := ih ⟨g.sema, g.oidx + 1⟩
      have hoidx : g.oidx + 1 + n = g.oidx + (n + 1) := by omega
      cases hor : oracle g.oidx with
      | none =>
          simp only [step_retry_loop, hor]
          refine ⟨ih1, by rw [ih2]; simp only [hoidx], ?_, ?_⟩
          · rw [count_step_invoke_append, count_step_invoke_invoke_self, ih3]
            omega
          · intro e he
            rcases List.mem_append.mp he with hh | hh
            · exact Or.inl (List.mem_singleton.mp hh)
            · exact ih4 e hh
      | some b =>
          cases b with
          | true => exact absurd hor (hno g.oidx)
          | false =>
              simp only [step_retry_loop, hor]
              refine ⟨ih1, by rw [ih2]; simp only [hoidx], ?_, ?_⟩
              · rw [count_step_invoke_append, count_step_invoke_append,
                  count_step_invoke_invoke_self, count_step_invoke_ite_delay, ih3]
                omega
              · intro e he
                rcases List.mem_append.mp he with hh | hh
                · rcases List.mem_append.mp hh with hh2 | hh2
                  · exact Or.inl (List.mem_singleton.mp hh2)
                  · rcases Decidable.em (step.process_interval_tick ≠ 0) with hd | hd
                    · rw [if_pos hd] at hh2
                      exact Or.inr ⟨_, List.mem_singleton.mp hh2⟩
                    · rw [if_neg hd] at hh2
                      exact absurd hh2 (List.not_mem_nil e)
                · exact ih4 e hh

theorem table_process_never_success (oracle : ℕ → Option Bool)
    (hno : ∀ i, oracle i ≠ some true) (step : wapi_process_t)
    (rest : List wapi_process_t) (o : ℕ) :
    table_process oracle (step :: rest) ⟨true, o⟩ =
      (wapi_status.WAPI_ERR_OTHERS, ⟨true, o + AT_ERR_REPEAT_CNT⟩,
        (step_retry_loop oracle step 0 AT_ERR_REPEAT_CNT ⟨false, o⟩).2.2 ++
          [wapi_event.stepCpl 0 false]) ∧
    count_step_invoke 0 (table_process oracle (step :: rest) ⟨true, o⟩).2.2 =
      AT_ERR_REPEAT_CNT ∧
    (∀ e ∈ (table_process oracle (step :: rest) ⟨true, o⟩).2.2,
      e = wapi_event.stepInvoke 0 ∨ (∃ t, e = wapi_event.intervalDelay t) ∨
        e = wapi_event.stepCpl 0 false) := by
  obtain ⟨h1, h2, h3, h4⟩ :=
    step_retry_loop_never_success oracle hno step 0 AT_ERR_REPEAT_CNT ⟨false, o⟩
  have key : table_process oracle (step :: rest) ⟨true, o⟩ =
      (wapi_status.WAPI_ERR_OTHERS, ⟨true, o + AT_ERR_REPEAT_CNT⟩,
        (step_retry_loop oracle step 0 AT_ERR_REPEAT_CNT ⟨false, o⟩).2.2 ++
          [wapi_event.stepCpl 0 false]) := by
    simp only [table_process, table_process_go, List.isEmpty_cons, Bool.false_eq_true,
      if_false, h1]
    rw [h2]
    simp
  refine ⟨key, ?_, ?_⟩
  · simp only [key]
    rw [count_step_invoke_append, h3]
    simp [count_step_invoke]
  · simp only [key]
    intro e he
    rcases List.mem_append.mp he with hh | hh
    · rcases h4 e hh with h5 | h5
      · exact Or.inl h5
      · exact Or.inr (Or.inl h5)
    · exact Or.inr (Or.inr (List.mem_singleton.mp hh))

theorem generic_process_go_succ (oracle : ℕ → Option Bool) (table : List wapi_process_t)
    (fuel : ℕ) (g : process_gate_state) :
    generic_process_go oracle table (fuel + 1) g =
      (if (table_process oracle table g).1 = wapi_status.WAPI_OK then
        table_process oracle table g
      else if fuel = 0 then table_process oracle table g
      else
        ((generic_process_go oracle table fuel (table_process oracle table g).2.1).1,
         (generic_process_go oracle table fuel (table_process oracle table g).2.1).2.1,
         (table_process oracle table g).2.2 ++
           (generic_process_go oracle table fuel (table_process oracle table g).2.1).2.2)) :=
  rfl

theorem generic_process_never_success (oracle : ℕ → Option Bool)
    (hno : ∀ i, oracle i ≠ some true) (step : wapi_process_t)
    (rest : List wapi_process_t) (o : ℕ) :
    (generic_process oracle (step :: rest) ⟨true, o⟩).1 = wapi_status.WAPI_ERR_OTHERS ∧
    (generic_process oracle (step :: rest) ⟨true, o⟩).2.1 =
      ⟨true, o + AT_ERR_REPEAT_CNT * WAPI_PROCESS_RETRY_MAX⟩ ∧
    count_step_invoke 0 (generic_process oracle (step :: rest) ⟨true, o⟩).2.2 =
      AT_ERR_REPEAT_CNT * WAPI_PROCESS_RETRY_MAX ∧
    (∀ e ∈ (generic_process oracle (step :: rest) ⟨true, o⟩).2.2,
      e = wapi_event.stepInvoke 0 ∨ (∃ t, e = wapi_event.intervalDelay t) ∨
        e = wapi_event.stepCpl 0 false) := by
  obtain ⟨akey, a3, a4⟩ := table_process_never_success oracle hno step rest o
  obtain ⟨bkey, b3, b4⟩ :=
    table_process_never_success oracle hno step rest (o + AT_ERR_REPEAT_CNT)
  have hne : ¬ (table_process oracle (step :: rest) ⟨true, o⟩).1 = wapi_status.WAPI_OK := by
    rw [akey]
    exact fun h => wapi_status.noConfusion h
  have hsnd : (table_process oracle (step :: rest) ⟨true, o⟩).2.1 =
      ⟨true, o + AT_ERR_REPEAT_CNT⟩ := by rw [akey]
  have key : generic_process oracle (step :: rest) ⟨true, o⟩ =
      ((table_process oracle (step :: rest) ⟨true, o + AT_ERR_REPEAT_CNT⟩).1,
       (table_process oracle (step :: rest) ⟨true, o + AT_ERR_REPEAT_CNT⟩).2.1,
       (table_process oracle (step :: rest) ⟨true, o⟩).2.2 ++
         (table_process oracle (step :: rest) ⟨true, o + AT_ERR_REPEAT_CNT⟩).2.2) := by
    show generic_process_go oracle (step :: rest) (1 + 1) ⟨true, o⟩ = _
    rw [generic_process_go_succ, if_neg hne, if_neg one_ne_zero]
    rw [show (1 : ℕ) = 0 + 1 from rfl, generic_process_go_succ, hsnd]
    split_ifs with hc1 hc2
    · rfl
    · rfl
    · exact absurd rfl hc2
  refine ⟨?_, ?_, ?_, ?_⟩
  · rw [key]
    rw [show ((table_process oracle (step :: rest) ⟨true, o + AT_ERR_REPEAT_CNT⟩).1,
        (table_process oracle (step :: rest) ⟨true, o + AT_ERR_REPEAT_CNT⟩).2.1,
        (table_process oracle (step :: rest) ⟨true, o⟩).2.2 ++
          (table_process oracle (step :: rest) ⟨true, o + AT_ERR_REPEAT_CNT⟩).2.2).1 =
        (table_process oracle (step :: rest) ⟨true, o + AT_ERR_REPEAT_CNT⟩).1 from rfl, bkey]
  · rw [key]
    rw [show ((table_process oracle (step :: rest) ⟨true, o + AT_ERR_REPEAT_CNT⟩).1,
        (table_process oracle (step :: rest) ⟨true, o + AT_ERR_REPEAT_CNT⟩).2.1,
        (table_process oracle (step :: rest) ⟨true, o⟩).2.2 ++
          (table_process oracle (step :: rest) ⟨true, o + AT_ERR_REPEAT_CNT⟩).2.2).2.1 =
        (table_process oracle (step :: rest) ⟨true, o + AT_ERR_REPEAT_CNT⟩).2.1 from rfl, bkey]
    have : o + AT_ERR_REPEAT_CNT + AT_ERR_REPEAT_CNT =
        o + AT_ERR_REPEAT_CNT * WAPI_PROCESS_RETRY_MAX := by
      simp [AT_ERR_REPEAT_CNT, WAPI_PROCESS_RETRY_MAX]
    rw [this]
  · rw [key]
    show count_step_invoke 0 ((table_process oracle (step :: rest) ⟨true, o⟩).2.2 ++
      (table_process oracle (step :: rest) ⟨true, o + AT_ERR_REPEAT_CNT⟩).2.2) = _
    rw [count_step_invoke_append, a3, b3]
    simp [AT_ERR_REPEAT_CNT, WAPI_PROCESS_RETRY_MAX]
  · rw [key]
    intro e he
    have he2 : e ∈ (table_process oracle (step :: rest) ⟨true, o⟩).2.2 ++
        (table_process oracle (step :: rest) ⟨true, o + AT_ERR_REPEAT_CNT⟩).2.2 := he
    rcases List.mem_append.mp he2 with hh | hh
    · exact a4 e hh
    · exact b4 e hh

/-- C3: with a step table whose responses never signal success (every
receive-state wait either times out or reports failure), the first step is
attempted `AT_ERR_REPEAT_CNT = 4` times per `table_process` run and the
table is run `WAPI_PROCESS_RETRY_MAX = 2` times by `generic_process`, so
the step is attempted 4 x 2 = 8 times in total; the process is then
reported failed (`WAPI_ERR_OTHERS`), the mutual-exclusion gate ends up
released, and the worker thread's failure handling fires its retry hook
as the final action of the iteration (the public error callback is
reserved for `WAPI_PROCESS_FAIL_MAX` consecutive process failures and
does not fire on the first one). -/
theorem step_attempted_eight_times_before_failure_hook (oracle : ℕ → Option Bool)
    (hno : ∀ i, oracle i ≠ some true) (step : wapi_process_t)
    (rest : List wapi_process_t) :
    (generic_wapi_thread_iter oracle (step :: rest) 0 ⟨true, 0⟩).1 =
        wapi_status.WAPI_ERR_OTHERS ∧
      (generic_wapi_thread_iter oracle (step :: rest) 0 ⟨true, 0⟩).2.1 = 1 ∧
      (generic_wapi_thread_iter oracle (step :: rest) 0 ⟨true, 0⟩).2.2.1.sema = true ∧
      count_step_invoke 0 (generic_wapi_thread_iter oracle (step :: rest) 0 ⟨true, 0⟩).2.2.2 =
        AT_ERR_REPEAT_CNT * WAPI_PROCESS_RETRY_MAX ∧
      AT_ERR_REPEAT_CNT * WAPI_PROCESS_RETRY_MAX = 8 ∧
      (∀ i, i ≠ 0 →
        count_step_invoke i
          (generic_wapi_thread_iter oracle (step :: rest) 0 ⟨true, 0⟩).2.2.2 = 0) ∧
      (generic_wapi_thread_iter oracle (step :: rest) 0 ⟨true, 0⟩).2.2.2.getLast? =
        some wapi_event.retryHook ∧
      wapi_event.errHook ∉
        (generic_wapi_thread_iter oracle (step :: rest) 0 ⟨true, 0⟩).2.2.2 ∧
      wapi_event.successHook ∉
        (generic_wapi_thread_iter oracle (step :: rest) 0 ⟨true, 0⟩).2.2.2 := by
  obtain ⟨g1, g2, g3, g4⟩ := generic_process_never_success oracle hno step rest 0
  have hne : ¬ (generic_process oracle (step :: rest) ⟨true, 0⟩).1 =
      wapi_status.WAPI_OK := by
    rw [g1]
    exact fun h => wapi_status.noConfusion h
  have hfail : (0 : ℕ) < WAPI_PROCESS_FAIL_MAX := by decide
  have key : generic_wapi_thread_iter oracle (step :: rest) 0 ⟨true, 0⟩ =
      ((generic_process oracle (step :: rest) ⟨true, 0⟩).1, 1,
       (generic_process oracle (step :: rest) ⟨true, 0⟩).2.1,
       wapi_event.startHook :: (generic_process oracle (step :: rest) ⟨true, 0⟩).2.2 ++
         [wapi_event.retryHook]) := by
    simp only [generic_wapi_thread_iter, hne, if_false, hfail, if_pos, ite_false]
  rw [key]
  refine ⟨g1, rfl, ?_, ?_, by decide, ?_, ?_, ?_, ?_⟩
  · show (generic_process oracle (step :: rest) ⟨true, 0⟩).2.1.sema = true
    rw [g2]
  · show count_step_invoke 0 (wapi_event.startHook ::
      (generic_process oracle (step :: rest) ⟨true, 0⟩).2.2 ++ [wapi_event.retryHook]) = _
    rw [show wapi_event.startHook ::
        (generic_process oracle (step :: rest) ⟨true, 0⟩).2.2 ++ [wapi_event.retryHook] =
        [wapi_event.startHook] ++ (generic_process oracle (step :: rest) ⟨true, 0⟩).2.2 ++
          [wapi_event.retryHook] from rfl]
    rw [count_step_invoke_append, count_step_invoke_append, g3]
    simp [count_step_invoke]
  · intro i hi
    show count_step_invoke i (wapi_event.startHook ::
      (generic_process oracle (step :: rest) ⟨true, 0⟩).2.2 ++ [wapi_event.retryHook]) = 0
    rw [show wapi_event.startHook ::
        (generic_process oracle (step :: rest) ⟨true, 0⟩).2.2 ++ [wapi_event.retryHook] =
        [wapi_event.startHook] ++ (generic_process oracle (step :: rest) ⟨true, 0⟩).2.2 ++
          [wapi_event.retryHook] from rfl]
    rw [count_step_invoke_append, count_step_invoke_append]
    have hz : count_step_invoke i (generic_process oracle (step :: rest) ⟨true, 0⟩).2.2 = 0 := by
      rw [count_step_invoke, List.countP_eq_zero]
      intro e he
      rcases g4 e he with hh | hh | hh
      · subst hh
        simp [Ne.symm hi]
      · obtain ⟨t, ht⟩ := hh
        subst ht
        simp
      · subst hh
        simp
    rw [hz]
    simp [count_step_invoke]
  · show (wapi_event.startHook :: (generic_process oracle (step :: rest) ⟨true, 0⟩).2.2 ++
      [wapi_event.retryHook]).getLast? = _
    rw [show wapi_event.startHook ::
        (generic_process oracle (step :: rest) ⟨true, 0⟩).2.2 ++ [wapi_event.retryHook] =
        (wapi_event.startHook :: (generic_process oracle (step :: rest) ⟨true, 0⟩).2.2) ++
          [wapi_event.retryHook] from rfl]
    exact List.getLast?_concat _
  · intro hmem
    rcases List.mem_cons.mp hmem with hh | hh
    · exact wapi_event.noConfusion hh
    rcases List.mem_append.mp hh with h2 | h2
    · rcases g4 _ h2 with h3 | h3 | h3
      · exact wapi_event.noConfusion h3
      · obtain ⟨t, ht⟩ := h3
        exact wapi_event.noConfusion ht
      · exact wapi_event.noConfusion h3
    · exact wapi_event.noConfusion (List.mem_singleton.mp h2)
  · intro hmem
    rcases List.mem_cons.mp hmem with hh | hh
    · exact wapi_event.noConfusion hh
    rcases List.mem_append.mp hh with h2 | h2
    · rcases g4 _ h2 with h3 | h3 | h3
      · exact wapi_event.noConfusion h3
      · obtain ⟨t, ht⟩ := h3
        exact wapi_event.noConfusion ht
      · exact wapi_event.noConfusion h3
    · exact wapi_event.noConfusion (List.mem_singleton.mp h2)

theorem step_attempted_eight_times_before_failure_hook_witness :
    (∀ i : ℕ, (fun _ : ℕ => (none : Option Bool)) i ≠ some true) ∧
    count_step_invoke 0
        (generic_wapi_thread_iter (fun _ : ℕ => (none : Option Bool)) [⟨30000, 0⟩] 0 ⟨true, 0⟩).2.2.2 =
      AT_ERR_REPEAT_CNT * WAPI_PROCESS_RETRY_MAX ∧
    (generic_wapi_thread_iter (fun _ : ℕ => (none : Option Bool)) [⟨30000, 0⟩] 0 ⟨true, 0⟩).2.2.2.getLast? =
      some wapi_event.retryHook :=
  ⟨fun _i hh => Option.noConfusion hh,
   (step_attempted_eight_times_before_failure_hook (fun _ : ℕ => (none : Option Bool))
      (fun _i hh => Option.noConfusion hh) ⟨30000, 0⟩ []).2.2.2.1,
   (step_attempted_eight_times_before_failure_hook (fun _ : ℕ => (none : Option Bool))
      (fun _i hh => Option.noConfusion hh) ⟨30000, 0⟩ []).2.2.2.2.2.2.1⟩

theorem hex_go_succ (src : List ℕ) (pos byte_idx : ℕ) (dest : ℕ → ℕ) :
    hex_go src (pos + 1) byte_idx dest =
      if (pos + 1) % 2 ≠ 0 then
        hex_go src pos byte_idx
          (fun a => if a = pos + 1 then nibble_to_hex_char (src.getD byte_idx 0 % 16) else dest a)
      else
        hex_go src pos (if byte_idx ≠ 0 then byte_idx - 1 else byte_idx)
          (fun a => if a = pos + 1 then nibble_to_hex_char (src.getD byte_idx 0 / 16 % 16) else dest a) :=
  rfl

theorem hex_go_zero (src : List ℕ) (byte_idx : ℕ) (dest : ℕ → ℕ) :
    hex_go src 0 byte_idx dest =
      fun a => if a = 0 then nibble_to_hex_char (src.getD byte_idx 0 / 16 % 16) else dest a :=
  rfl

theorem hex_go_spec (src : List ℕ) :
    ∀ k, k < src.length → ∀ (dest : ℕ → ℕ) (j : ℕ),
      hex_go src (2 * k + 1) k dest j =
        if j ≤ 2 * k + 1 then hex_digit src j else dest j := by
  intro k
  induction k with
  | zero =>
      intro _ dest j
      show hex_go src (0 + 1) 0 dest j = _
      rw [hex_go_succ, if_pos (by omega : (0 + 1) % 2 ≠ 0), hex_go_zero]
      by_cases h0 : j = 0
      · subst h0
        simp [hex_digit]
      · by_cases h1 : j = 1
        · subst h1
          simp [hex_digit]
        · have hnot : ¬ j ≤ 2 * 0 + 1 := by omega
          simp [h0, h1, hnot]
  | succ k ih =>
      intro hk dest j
      have hk2 : k < src.length := by omega
      rw [show 2 * (k + 1) + 1 = (2 * k + 2) + 1 from by ring]
      rw [hex_go_succ, if_pos (by omega : ((2 * k + 2) + 1) % 2 ≠ 0)]
      rw [show (2 * k + 2) = (2 * k + 1) + 1 from by ring]
      rw [hex_go_succ, if_neg (by omega : ¬ ((2 * k + 1) + 1) % 2 ≠ 0)]
      rw [if_pos (by omega : k + 1 ≠ 0)]
      rw [show k + 1 - 1 = k from by omega]
      rw [ih hk2]
      by_cases hj1 : j ≤ 2 * k + 1
      · rw [if_pos hj1, if_pos (by omega)]
      · rw [if_neg hj1]
        have e1 : (2 * k + 1 + 1) % 2 = 0 := by omega
        have e2 : (2 * k + 1 + 1) / 2 = k + 1 := by omega
        have e3 : (2 * k + 1 + 1 + 1) % 2 = 1 := by omega
        have e4 : (2 * k + 1 + 1 + 1) / 2 = k + 1 := by omega
        by_cases hj2 : j = 2 * k + 1 + 1
        · subst hj2
          rw [if_pos rfl, if_pos (by omega)]
          simp [hex_digit, e1, e2]
        · rw [if_neg hj2]
          by_cases hj3 : j = 2 * k + 1 + 1 + 1
          · subst hj3
            rw [if_pos rfl, if_pos (by omega)]
            simp [hex_digit, e3, e4]
          · rw [if_neg hj3, if_neg (by omega)]

theorem byte_array_to_hex_string_def (source : List ℕ) (dest : ℕ → ℕ) :
    byte_array_to_hex_string source dest =
      (hex_go source (hex_init_pos source.length) (hex_init_byte_idx source.length) dest,
       2 * source.length % 65536) :=
  rfl

theorem byte_array_to_hex_string_spec (src : List ℕ) (dest : ℕ → ℕ)
    (h1 : 1 ≤ src.length) (h2 : src.length ≤ 256) :
    (byte_array_to_hex_string src dest).2 = 2 * src.length ∧
    ∀ j, (byte_array_to_hex_string src dest).1 j =
      if j < 2 * src.length then hex_digit src j else dest j := by
  have hpos : hex_init_pos src.length = 2 * (src.length - 1) + 1 := by
    unfold hex_init_pos
    omega
  have hbi : hex_init_byte_idx src.length = src.length - 1 := by
    unfold hex_init_byte_idx
    omega
  rw [byte_array_to_hex_string_def]
  constructor
  · show 2 * src.length % 65536 = _
    omega
  · intro j
    dsimp only
    rw [hpos, hbi, hex_go_spec src (src.length - 1) (by omega) dest j]
    by_cases hj : j < 2 * src.length
    · rw [if_pos (by omega), if_pos hj]
    · rw [if_neg (by omega), if_neg hj]

theorem hex_string_of_eq (src : List ℕ) (h1 : 1 ≤ src.length) (h2 : src.length ≤ 256) :
    hex_string_of src = (List.range (2 * src.length)).map (hex_digit src) := by
  obtain ⟨hl, hv⟩ := byte_array_to_hex_string_spec src (fun _ => 0) h1 h2
  unfold hex_string_of
  rw [hl]
  apply List.map_congr_left
  intro a ha
  rw [hv a, if_pos (List.mem_range.mp ha)]

theorem range_map_getD (m : ℕ) (f : ℕ → ℕ) (j : ℕ) (hj : j < m) :
    ((List.range m).map f).getD j 0 = f j := by
  rw [List.getD_eq_getElem _ _ (by simpa using hj)]
  simp [List.getElem_map, List.getElem_range]

theorem write_bytes_spec :
    ∀ (l : List ℕ) (dest : ℕ → ℕ) (base a : ℕ),
      write_bytes dest base l a =
        if base ≤ a ∧ a < base + l.length then l.getD (a - base) 0 else dest a := by
  intro l
  induction l with
  | nil =>
      intro dest base a
      simp only [write_bytes, List.length_nil]
      rw [if_neg (by omega)]
  | cons b rest ih =>
      intro dest base a
      simp only [write_bytes]
      rw [ih]
      by_cases h1 : base + 1 ≤ a ∧ a < base + 1 + rest.length
      · rw [if_pos h1, if_pos (by simp only [List.length_cons]; omega)]
        rw [show a - base = (a - (base + 1)) + 1 from by omega]
        simp [List.getD_cons_succ]
      · rw [if_neg h1]
        by_cases h2 : a = base
        · subst h2
          rw [if_pos rfl, if_pos (by simp only [List.length_cons]; omega)]
          simp [List.getD_cons_zero]
        · rw [if_neg h2, if_neg (by simp only [List.length_cons]; omega)]

theorem at_trans_send_with_callback_ok (st : at_priv_data_t) (data : List ℕ)
    (cb : at_trans_callback_t) (hsema : st.semaAvailable = true)
    (hcb0 : (cb.pf_at_recv_parse.getD 0 none).isSome = true)
    (hrc0 : ¬ cb.receive_count = 0)
    (hrcmax : ¬ MAX_RECV_CNT_OF_TRANS_SEND < cb.receive_count)
    (hslots : ((List.range cb.receive_count).any
        (fun i => (cb.pf_at_recv_parse.getD i none).isNone)) = false) :
    at_trans_send st data (some cb) =
      ⟨at_status.AT_OK,
       {st with semaAvailable := false,
                send_info := some (send_info_t.transparentEvent cb),
                remain_receive_count := cb.receive_count},
       [data], false⟩ := by
  unfold at_trans_send
  rw [if_neg (show ¬ st.semaAvailable = false from by rw [hsema]; exact fun h => Bool.noConfusion h)]
  dsimp only
  rw [if_pos hcb0]
  rw [if_neg hrc0]
  rw [if_neg hrcmax]
  rw [if_neg (show ¬ ((List.range cb.receive_count).any
      (fun i => (cb.pf_at_recv_parse.getD i none).isNone)) = true from by
    rw [hslots]; exact fun h => Bool.noConfusion h)]

/-- C7: with the send-ready flag set (and the transaction gate free),
`m0804c_send` with an n-byte payload performs exactly one transparent
transmission whose bytes are the ASCII string "AT+NSEND,1,1," followed by
2n hex characters followed by CR LF, where the hex characters encode the
payload bytes most-significant nibble first in uppercase; in particular
`byte_array_to_hex_string` yields "DEAD" on {0xDE, 0xAD} and "0A" on
{0x0A}. -/
theorem m0804c_send_transmission_format (st : m0804c_priv_data_t) (payload : List ℕ)
    (recv_parse_cb : Option ℕ)
    (hflag : st.trans_send_flag = true)
    (hsema : st.at_state.semaAvailable = true)
    (hlen1 : 1 ≤ payload.length) (hlen2 : payload.length ≤ 56) :
    (m0804c_send st (some payload) recv_parse_cb).status = wapi_status.WAPI_OK ∧
    (m0804c_send st (some payload) recv_parse_cb).uart_writes =
      [List.map Char.toNat (("AT+NSEND,1,1,").toList) ++ hex_string_of payload ++ [13, 10]] ∧
    (hex_string_of payload).length = 2 * payload.length ∧
    (∀ i, i < payload.length →
      (hex_string_of payload).getD (2 * i) 0 =
          nibble_to_hex_char (payload.getD i 0 / 16 % 16) ∧
        (hex_string_of payload).getD (2 * i + 1) 0 =
          nibble_to_hex_char (payload.getD i 0 % 16)) ∧
    hex_string_of [222, 173] = List.map Char.toNat (("DEAD").toList) ∧
    hex_string_of [10] = List.map Char.toNat (("0A").toList) := by
  have hn2 : payload.length ≤ 256 := by omega
  have hhexeq := hex_string_of_eq payload hlen1 hn2
  have hhexlen : (hex_string_of payload).length = 2 * payload.length := by
    rw [hhexeq]
    simp
  have hcmd : at_vsnprintf (("AT+NSEND,%d,1,").toList) [va_arg.intArg (Int.ofNat CUR_SOCKET)] =
      List.map Char.toNat (("AT+NSEND,1,1,").toList) := by decide
  have hcmdlen : (List.map Char.toNat (("AT+NSEND,1,1,").toList)).length = 13 := by decide
  obtain ⟨hx2, hx1⟩ := byte_array_to_hex_string_spec payload
    (fun a => write_bytes st.wapi_send_buf 0
      (List.map Char.toNat (("AT+NSEND,1,1,").toList) ++ [0]) (13 + a)) hlen1 hn2
  have hcore : (m0804c_send st (some payload) recv_parse_cb).status = wapi_status.WAPI_OK ∧
      (m0804c_send st (some payload) recv_parse_cb).uart_writes =
        [List.map Char.toNat (("AT+NSEND,1,1,").toList) ++ hex_string_of payload ++ [13, 10]] := by
    simp only [m0804c_send, hflag, if_true, wapi_send_data, hcmd, hcmdlen]
    rw [if_neg (by omega : ¬ payload.length = 0)]
    rw [if_neg (by decide : ¬ SEND_BUF_SIZE ≤ 13)]
    rw [hx2]
    rw [if_neg (show ¬ SEND_BUF_SIZE < 13 + 2 * payload.length + 2 from by
      have hsb : SEND_BUF_SIZE = 128 := rfl
      omega)]
    rw [at_trans_send_with_callback_ok st.at_state _
      ⟨[some CHECK_CONNECT_CB, some SEND_RECV_CB], recv_parse_cb.getD 0, 0, 2⟩ hsema rfl
      (by simp) (by simp [MAX_RECV_CNT_OF_TRANS_SEND]) rfl]
    refine ⟨rfl, ?_⟩
    refine congrArg (fun x => [x]) ?_
    have hlenph : (List.map Char.toNat (("AT+NSEND,1,1,").toList) ++
        hex_string_of payload).length = 13 + 2 * payload.length := by
      rw [List.length_append, hcmdlen, hhexlen]
    apply List.ext_getElem
    · simp [hhexlen, hcmdlen]
      omega
    · intro i hi1 hi2
      have hi : i < 13 + 2 * payload.length + 2 := by simpa using hi1
      simp only [List.getElem_map, List.getElem_range]
      rw [← List.getD_eq_getElem _ 0 hi2]
      by_cases hc1 : i < 13
      · rw [if_neg (by omega), if_neg (by omega), if_neg (by omega)]
        rw [write_bytes_spec]
        rw [if_pos (show 0 ≤ i ∧ i < 0 + (List.map Char.toNat (("AT+NSEND,1,1,").toList) ++
            ([0] : List ℕ)).length from by
          constructor
          · omega
          · have h14 : (List.map Char.toNat (("AT+NSEND,1,1,").toList) ++
                ([0] : List ℕ)).length = 14 := by decide
            omega)]
        rw [show i - 0 = i from by omega]
        rw [List.getD_append _ _ _ _ (by rw [hcmdlen]; omega)]
        rw [List.getD_append _ _ _ _ (by rw [hlenph]; omega)]
        rw [List.getD_append _ _ _ _ (by rw [hcmdlen]; omega)]
      · by_cases hc2 : i < 13 + 2 * payload.length
        · rw [if_neg (by omega), if_neg (by omega), if_pos (by omega)]
          rw [hx1 (i - 13), if_pos (by omega)]
          rw [List.getD_append _ _ _ _ (by rw [hlenph]; omega)]
          rw [List.getD_append_right _ _ _ _ (by rw [hcmdlen]; omega)]
          rw [hcmdlen]
          rw [hhexeq, range_map_getD _ _ _ (by omega)]
        · by_cases hc3 : i = 13 + 2 * payload.length
          · rw [if_neg (by omega), if_pos (by omega)]
            rw [List.getD_append_right _ _ _ _ (by rw [hlenph]; omega)]
            rw [hlenph]
            rw [show i - (13 + 2 * payload.length) = 0 from by omega]
            rfl
          · rw [if_pos (by omega)]
            rw [List.getD_append_right _ _ _ _ (by rw [hlenph]; omega)]
            rw [hlenph]
            rw [show i - (13 + 2 * payload.length) = 1 from by omega]
            rfl
  refine ⟨hcore.1, hcore.2, hhexlen, ?_, by decide, by decide⟩
  intro i hi
  constructor
  · rw [hhexeq, range_map_getD _ _ _ (by omega)]
    unfold hex_digit
    rw [if_neg (by omega : ¬ (2 * i) % 2 ≠ 0)]
    rw [show 2 * i / 2 = i from by omega]
  · rw [hhexeq, range_map_getD _ _ _ (by omega)]
    unfold hex_digit
    rw [if_pos (by omega : (2 * i + 1) % 2 ≠ 0)]
    rw [show (2 * i + 1) / 2 = i from by omega]

theorem m0804c_send_transmission_format_witness :
    (1 : ℕ) ≤ ([222, 173, 190, 239, 1, 2, 3, 4, 5, 6] : List ℕ).length ∧
    (m0804c_send ⟨true, fun _ => 0, ⟨true, none, 0, []⟩⟩
        (some [222, 173, 190, 239, 1, 2, 3, 4, 5, 6]) none).status = wapi_status.WAPI_OK ∧
    (m0804c_send ⟨true, fun _ => 0, ⟨true, none, 0, []⟩⟩
        (some [222, 173, 190, 239, 1, 2, 3, 4, 5, 6]) none).uart_writes =
      [List.map Char.toNat (("AT+NSEND,1,1,").toList) ++
        hex_string_of [222, 173, 190, 239, 1, 2, 3, 4, 5, 6] ++ [13, 10]] :=
  ⟨by decide,
   (m0804c_send_transmission_format ⟨true, fun _ => 0, ⟨true, none, 0, []⟩⟩
      [222, 173, 190, 239, 1, 2, 3, 4, 5, 6] none rfl rfl (by decide) (by decide)).1,
   (m0804c_send_transmission_format ⟨true, fun _ => 0, ⟨true, none, 0, []⟩⟩
      [222, 173, 190, 239, 1, 2, 3, 4, 5, 6] none rfl rfl (by decide) (by decide)).2.1⟩

/-- C10: with the send-ready flag set, `m0804c_send` and
`m0804c_send_without_response` reject a NULL buffer or a zero length with
`WAPI_ERR_PARAM_INVALID` before any hex encoding or transmission takes
place; the hex encoder's initial position `source_len * 2 - 1` underflows
to 65535 on a zero-length source (uint16 wraparound, far beyond any valid
destination index); and every call that passes the guard (non-null buffer,
length at least 1) does reach the hex encoding, so the guard is what keeps
a zero length away from `byte_array_to_hex_string` on the public send
path. -/
theorem send_zero_length_guarded (st : m0804c_priv_data_t) (recv_parse_cb : Option ℕ)
    (payload : List ℕ) (hflag : st.trans_send_flag = true) :
    m0804c_send st none recv_parse_cb =
      ⟨wapi_status.WAPI_ERR_PARAM_INVALID, st, [], false⟩ ∧
    m0804c_send st (some []) recv_parse_cb =
      ⟨wapi_status.WAPI_ERR_PARAM_INVALID, st, [], false⟩ ∧
    m0804c_send_without_response st none =
      ⟨wapi_status.WAPI_ERR_PARAM_INVALID, st, [], false⟩ ∧
    m0804c_send_without_response st (some []) =
      ⟨wapi_status.WAPI_ERR_PARAM_INVALID, st, [], false⟩ ∧
    hex_init_pos 0 = 65535 ∧
    (1 ≤ payload.length →
      (m0804c_send st (some payload) recv_parse_cb).reached_hex = true) := by
  refine ⟨?_, ?_, ?_, ?_, by decide, ?_⟩
  · simp [m0804c_send, hflag, wapi_send_data]
  · simp [m0804c_send, hflag, wapi_send_data]
  · simp [m0804c_send_without_response, hflag, wapi_send_data_without_response]
  · simp [m0804c_send_without_response, hflag, wapi_send_data_without_response]
  · intro hlen
    simp only [m0804c_send, hflag, if_true, wapi_send_data]
    rw [if_neg (by omega : ¬ payload.length = 0)]
    rw [if_neg (by decide : ¬ SEND_BUF_SIZE ≤ (at_vsnprintf (("AT+NSEND,%d,1,").toList)
      [va_arg.intArg (Int.ofNat CUR_SOCKET)]).length)]
    split_ifs <;> rfl

theorem send_zero_length_guarded_witness :
    (⟨true, fun _ => 0, ⟨true, none, 0, []⟩⟩ : m0804c_priv_data_t).trans_send_flag = true ∧
    (m0804c_send ⟨true, fun _ => 0, ⟨true, none, 0, []⟩⟩ none none).status =
      wapi_status.WAPI_ERR_PARAM_INVALID ∧
    (m0804c_send ⟨true, fun _ => 0, ⟨true, none, 0, []⟩⟩ (some []) none).uart_writes = [] ∧
    hex_init_pos 0 = 65535 :=
  ⟨rfl,
   by rw [(send_zero_length_guarded ⟨true, fun _ => 0, ⟨true, none, 0, []⟩⟩ none [1] rfl).1],
   by rw [(send_zero_length_guarded ⟨true, fun _ => 0, ⟨true, none, 0, []⟩⟩ none [1] rfl).2.1],
   (send_zero_length_guarded ⟨true, fun _ => 0, ⟨true, none, 0, []⟩⟩ none [1] rfl).2.2.2.2.1⟩

theorem mod_two_lt (x n : ℕ) (h : x < 2 * n) : x % n = if x < n then x else x - n := by
  by_cases hx : x < n
  · rw [if_pos hx, Nat.mod_eq_of_lt hx]
  · rw [if_neg hx]
    have h1 : n ≤ x := by omega
    rw [Nat.mod_eq_sub_mod h1, Nat.mod_eq_of_lt (by omega)]

theorem ring_window_length (buf : List ℕ) (start len : ℕ) :
    (ring_window buf start len).length = len := by
  simp [ring_window]

theorem take_drop_window (buf : List ℕ) (prev len : ℕ) (h : prev + len ≤ buf.length) :
    (buf.drop prev).take len = ring_window buf prev len := by
  apply List.ext_getElem
  · simp [ring_window]
    omega
  · intro i hi1 hi2
    have hlen : i < len := by
      simp at hi1
      omega
    have hib : prev + i < buf.length := by omega
    rw [List.getElem_take, List.getElem_drop]
    simp only [ring_window, List.getElem_map, List.getElem_range]
    rw [Nat.mod_eq_of_lt hib, List.getD_eq_getElem _ _ hib]

theorem wrap_window (buf : List ℕ) (prev ci : ℕ) (hc : ci < prev) (hp : prev < buf.length) :
    buf.drop prev ++ buf.take ci = ring_window buf prev (ci + buf.length - prev) := by
  have hn : 0 < buf.length := by omega
  apply List.ext_getElem
  · simp [ring_window]
    omega
  · intro i hi1 hi2
    have hlen : i < ci + buf.length - prev := by
      simp at hi1
      omega
    simp only [ring_window, List.getElem_map, List.getElem_range]
    by_cases h1 : i < buf.length - prev
    · rw [List.getElem_append_left (by simp; omega)]
      rw [List.getElem_drop]
      have hib : prev + i < buf.length := by omega
      rw [Nat.mod_eq_of_lt hib, List.getD_eq_getElem _ _ hib]
    · rw [List.getElem_append_right (by simp; omega)]
      have he : (prev + i) % buf.length = i - (buf.length - prev) := by
        rw [mod_two_lt _ _ (by omega), if_neg (by omega)]
        omega
      rw [he]
      have hib : i - (buf.length - prev) < buf.length := by omega
      rw [List.getD_eq_getElem _ _ hib]
      rw [List.getElem_take]
      congr 1
      simp [List.length_drop]

theorem linearize_spec (buf : List ℕ) (prev ci : ℕ)
    (hp : prev < buf.length) (hc : ci < buf.length) :
    (linearize buf prev ci).1 =
      ring_window buf prev ((ci + buf.length - prev) % buf.length) := by
  have hn : 0 < buf.length := by omega
  unfold linearize
  by_cases h0 : 0 < (ci + buf.length - prev) % buf.length
  · rw [if_pos h0]
    by_cases h1 : prev ≤ ci ∨ ci = 0
    · rw [if_pos h1]
      rcases h1 with h1 | h1
      · have he : (ci + buf.length - prev) % buf.length = ci - prev := by
          rw [mod_two_lt _ _ (by omega), if_neg (by omega)]
          omega
        rw [he]
        exact take_drop_window buf prev (ci - prev) (by omega)
      · subst h1
        have hprev : 0 < prev := by
          by_contra hh
          have : prev = 0 := by omega
          subst this
          simp at h0
        have he : (0 + buf.length - prev) % buf.length = buf.length - prev := by
          rw [mod_two_lt _ _ (by omega), if_pos (by omega)]
          omega
        rw [he]
        exact take_drop_window buf prev (buf.length - prev) (by omega)
    · rw [if_neg h1]
      push_neg at h1
      obtain ⟨h1a, h1b⟩ := h1
      have hcp : ci < prev := by omega
      have he : (ci + buf.length - prev) % buf.length = ci + buf.length - prev := by
        rw [mod_two_lt _ _ (by omega), if_pos (by omega)]
      rw [he]
      exact wrap_window buf prev ci hcp hp
  · rw [if_neg h0]
    have he : (ci + buf.length - prev) % buf.length = 0 := by omega
    rw [he]
    rfl

/-- C6 counterexample: the window with start index 2 and end index 0 in a
4-byte ring buffer has its start strictly greater than its end (the DMA
position wrapped exactly to offset 0), yet `notify_isr_cb` parses it in
place from the ring buffer (no copy into the scratch buffer), because the
linearize step treats `current_index = 0` as the non-wrap case; the claim
as stated requires a copy of two wrap segments for every start > end
window. -/
theorem linearize_wrap_counterexample :
    (0 : ℕ) < 2 ∧ (linearize [10, 11, 12, 13] 2 0).2 = false ∧
    (linearize [10, 11, 12, 13] 2 0).1 = [12, 13] := by
  refine ⟨by decide, by decide, by decide⟩

/-- C6 (amended): a receive window whose start index exceeds its nonzero
end index is linearized by copying the two wrap segments into the scratch
buffer; windows with start at most end, and windows whose end index is 0
(the range ends exactly at the buffer boundary), are parsed in place with
no copy; in every case the byte sequence handed to the framing strategy
is byte-for-byte the logical ring-buffer window, hence identical to the
sequence produced for a non-wrapped window with the same logical
content. -/
theorem linearize_wrap_delivers_logical_window (recv_buf : List ℕ)
    (previous_index current_index : ℕ)
    (hp : previous_index < recv_buf.length) (hc : current_index < recv_buf.length) :
    (0 < current_index → current_index < previous_index →
      linearize recv_buf previous_index current_index =
        (recv_buf.drop previous_index ++ recv_buf.take current_index, true)) ∧
    (previous_index ≤ current_index ∨ current_index = 0 →
      (linearize recv_buf previous_index current_index).2 = false) ∧
    (linearize recv_buf previous_index current_index).1 =
      ring_window recv_buf previous_index
        ((current_index + recv_buf.length - previous_index) % recv_buf.length) := by
  have hn : 0 < recv_buf.length := by omega
  refine ⟨?_, ?_, linearize_spec recv_buf previous_index current_index hp hc⟩
  · intro hc0 hcp
    unfold linearize
    have h0 : 0 < (current_index + recv_buf.length - previous_index) % recv_buf.length := by
      rw [mod_two_lt _ _ (by omega), if_pos (by omega)]
      omega
    rw [if_pos h0, if_neg (show ¬(previous_index ≤ current_index ∨ current_index = 0) by omega)]
  · intro hor
    unfold linearize
    by_cases h0 : 0 < (current_index + recv_buf.length - previous_index) % recv_buf.length
    · rw [if_pos h0, if_pos hor]
    · rw [if_neg h0]

theorem linearize_wrap_delivers_logical_window_witness :
    (3 : ℕ) < 4 ∧ (2 : ℕ) < 4 ∧
    linearize [10, 11, 12, 13] 3 2 = ([13, 10, 11], true) ∧
    (linearize [10, 11, 12, 13] 1 3).2 = false ∧
    (linearize [10, 11, 12, 13] 1 3).1 = ring_window [10, 11, 12, 13] 1 ((3 + 4 - 1) % 4) :=
  ⟨by decide, by decide,
   (linearize_wrap_delivers_logical_window [10, 11, 12, 13] 3 2 (by decide) (by decide)).1
     (by decide) (by decide),
   (linearize_wrap_delivers_logical_window [10, 11, 12, 13] 1 3 (by decide) (by decide)).2.1
     (Or.inl (by decide)),
   (linearize_wrap_delivers_logical_window [10, 11, 12, 13] 1 3 (by decide) (by decide)).2.2⟩

theorem subscribe_funcode_perm (l : List funcode_node_t) (node : funcode_node_t) :
    (subscribe_funcode l node).Perm (node :: l) := by
  induction l with
  | nil => simp [subscribe_funcode]
  | cons head rest ih =>
      unfold subscribe_funcode
      by_cases h : node.fun_code < head.fun_code
      · rw [if_pos h]
      · rw [if_neg h]
        exact (ih.cons head).trans (List.Perm.swap node head rest)

theorem subscribe_funcode_sorted (l : List funcode_node_t) (node : funcode_node_t)
    (h : l.Pairwise (fun a b => a.fun_code ≤ b.fun_code)) :
    (subscribe_funcode l node).Pairwise (fun a b => a.fun_code ≤ b.fun_code) := by
  induction l with
  | nil => simp [subscribe_funcode]
  | cons head rest ih =>
      rw [List.pairwise_cons] at h
      obtain ⟨h1, h2⟩ := h
      unfold subscribe_funcode
      by_cases hlt : node.fun_code < head.fun_code
      · rw [if_pos hlt]
        refine List.Pairwise.cons ?_ (List.Pairwise.cons h1 h2)
        intro x hx
        rcases List.mem_cons.mp hx with hx | hx
        · rw [hx]
          omega
        · have := h1 x hx
          omega
      · rw [if_neg hlt]
        refine List.Pairwise.cons ?_ (ih h2)
        intro x hx
        have hmem : x ∈ node :: rest := (subscribe_funcode_perm rest node).mem_iff.mp hx
        rcases List.mem_cons.mp hmem with hx2 | hx2
        · rw [hx2]
          omega
        · exact h1 x hx2

theorem build_funcode_registry_aux_perm (params : List funcode_node_t) :
    ∀ acc : List funcode_node_t,
      (params.foldl subscribe_funcode acc).Perm (params ++ acc) := by
  induction params with
  | nil => intro acc; simp
  | cons p ps ih =>
      intro acc
      simp only [List.foldl_cons, List.cons_append]
      exact (ih (subscribe_funcode acc p)).trans
        ((List.Perm.append_left ps (subscribe_funcode_perm acc p)).trans List.perm_middle)

theorem build_funcode_registry_perm (params : List funcode_node_t) :
    (build_funcode_registry params).Perm params := by
  have h := build_funcode_registry_aux_perm params []
  simpa [build_funcode_registry] using h

theorem build_funcode_registry_aux_sorted (params : List funcode_node_t) :
    ∀ acc : List funcode_node_t,
      acc.Pairwise (fun a b => a.fun_code ≤ b.fun_code) →
      (params.foldl subscribe_funcode acc).Pairwise (fun a b => a.fun_code ≤ b.fun_code) := by
  induction params with
  | nil => intro acc h; exact h
  | cons p ps ih =>
      intro acc h
      exact ih _ (subscribe_funcode_sorted acc p h)

theorem build_funcode_registry_sorted (params : List funcode_node_t) :
    (build_funcode_registry params).Pairwise (fun a b => a.fun_code ≤ b.fun_code) :=
  build_funcode_registry_aux_sorted params [] List.Pairwise.nil

theorem handle_function_code_parse_eq_filter (l : List funcode_node_t) (c : ℕ)
    (h : l.Pairwise (fun a b => a.fun_code ≤ b.fun_code)) :
    handle_function_code_parse l c =
      l.filter (fun nd => nd.fun_code == c && nd.cb.isSome) := by
  induction l with
  | nil => rfl
  | cons node rest ih =>
      rw [List.pairwise_cons] at h
      obtain ⟨h1, h2⟩ := h
      unfold handle_function_code_parse
      by_cases hgt : c < node.fun_code
      · rw [if_pos hgt]
        have hp : (node.fun_code == c && node.cb.isSome) = false := by
          have hne : node.fun_code ≠ c := by omega
          simp [hne]
        have hrest : rest.filter (fun nd => nd.fun_code == c && nd.cb.isSome) = [] := by
          rw [List.filter_eq_nil_iff]
          intro x hx
          have hle := h1 x hx
          have hne : x.fun_code ≠ c := by omega
          simp [hne]
        simp [List.filter_cons, hp, hrest]
      · rw [if_neg hgt]
        by_cases hm : node.fun_code = c ∧ node.cb.isSome
        · rw [if_pos hm]
          have hp : (node.fun_code == c && node.cb.isSome) = true := by
            simp [hm.1, hm.2]
          rw [ih h2]
          simp [List.filter_cons, hp]
        · rw [if_neg hm]
          have hp : (node.fun_code == c && node.cb.isSome) = false := by
            by_cases he : node.fun_code = c
            · by_cases hs : node.cb.isSome = true
              · exact absurd ⟨he, hs⟩ hm
              · simp only [Bool.not_eq_true] at hs
                simp [he, hs]
            · simp [he]
          rw [ih h2]
          simp [List.filter_cons, hp]

/-- C8: the function-code registry built by subscribing any parameter list
is sorted in ascending function-code order; for a sorted registry the
dispatch walk (which breaks at the first node whose code exceeds the
frame's code, so it never scans past the insertion point or the sentinel)
invokes exactly the nodes whose code matches the frame and whose callback
is non-NULL; in particular, after subscribing codes {5, 1, 3} in any
order, a frame with code 3 invokes only the code-3 callback and a frame
with code 9 (larger than every subscribed code) invokes nothing. -/
theorem funcode_subscribe_dispatch (params : List funcode_node_t) :
    (build_funcode_registry params).Pairwise (fun a b => a.fun_code ≤ b.fun_code) ∧
    (∀ c, handle_function_code_parse (build_funcode_registry params) c =
      (build_funcode_registry params).filter
        (fun nd => nd.fun_code == c && nd.cb.isSome)) ∧
    (∀ n1 n3 n5 : funcode_node_t,
      n1.fun_code = 1 → n3.fun_code = 3 → n5.fun_code = 5 →
      n3.cb.isSome = true →
      params.Perm [n5, n1, n3] →
      handle_function_code_parse (build_funcode_registry params) 3 = [n3] ∧
      handle_function_code_parse (build_funcode_registry params) 9 = []) := by
  have hsort := build_funcode_registry_sorted params
  have hpermreg := build_funcode_registry_perm params
  refine ⟨hsort, fun c => handle_function_code_parse_eq_filter _ c hsort, ?_⟩
  intro n1 n3 n5 h1 h3 h5 hcb hperm
  constructor
  · rw [handle_function_code_parse_eq_filter _ _ hsort]
    apply List.perm_singleton.mp
    refine ((hpermreg.filter _).trans (hperm.filter _)).trans ?_
    have hf : List.filter (fun nd => nd.fun_code == 3 && nd.cb.isSome) [n5, n1, n3] = [n3] := by
      simp [List.filter_cons, h1, h3, h5, hcb]
    rw [hf]
  · rw [handle_function_code_parse_eq_filter _ _ hsort]
    apply List.perm_nil.mp
    refine ((hpermreg.filter _).trans (hperm.filter _)).trans ?_
    have hf : List.filter (fun nd => nd.fun_code == 9 && nd.cb.isSome) [n5, n1, n3] = [] := by
      simp [List.filter_cons, h1, h3, h5]
    rw [hf]

theorem funcode_subscribe_dispatch_witness :
    handle_function_code_parse
        (build_funcode_registry
          [⟨5, 0, some 50⟩, ⟨1, 0, some 10⟩, ⟨3, 0, some 30⟩]) 3 = [⟨3, 0, some 30⟩] ∧
    handle_function_code_parse
        (build_funcode_registry
          [⟨5, 0, some 50⟩, ⟨1, 0, some 10⟩, ⟨3, 0, some 30⟩]) 9 = [] :=
  (funcode_subscribe_dispatch [⟨5, 0, some 50⟩, ⟨1, 0, some 10⟩, ⟨3, 0, some 30⟩]).2.2
    ⟨1, 0, some 10⟩ ⟨3, 0, some 30⟩ ⟨5, 0, some 50⟩ rfl rfl rfl rfl (by decide)

theorem notify_isr_cb_eq (threshold : ℕ) (strat : List ℕ → strat_result) (recv_buf : List ℕ)
    (counter : ℕ) (s : uart_proto_priv_data_t) :
    notify_isr_cb threshold strat recv_buf counter s =
      (if s.header + (recv_buf.length - counter + recv_buf.length - s.data_counter) %
            recv_buf.length = s.tail then
        ⟨⟨s.header + (recv_buf.length - counter + recv_buf.length - s.data_counter) %
            recv_buf.length, s.tail, s.data_counter, s.parse_fail_count + 1⟩, [], []⟩
      else if recv_buf.length ≤
          s.header + (recv_buf.length - counter + recv_buf.length - s.data_counter) %
            recv_buf.length - s.tail then
        ⟨⟨0, 0, 0, 0⟩, [], [recv_buf.length]⟩
      else if threshold ≤
          (if (strat (linearize recv_buf (s.tail % recv_buf.length)
                (recv_buf.length - counter)).1).cleared_fail_count
           then 0 else s.parse_fail_count + 1) then
        ⟨⟨0, 0, 0, 0⟩,
          (strat (linearize recv_buf (s.tail % recv_buf.length)
            (recv_buf.length - counter)).1).frames,
          [recv_buf.length]⟩
      else
        ⟨⟨s.header + (recv_buf.length - counter + recv_buf.length - s.data_counter) %
            recv_buf.length,
          s.tail + (strat (linearize recv_buf (s.tail % recv_buf.length)
            (recv_buf.length - counter)).1).bytes_used,
          recv_buf.length - counter,
          (if (strat (linearize recv_buf (s.tail % recv_buf.length)
                (recv_buf.length - counter)).1).cleared_fail_count
           then 0 else s.parse_fail_count + 1)⟩,
         (strat (linearize recv_buf (s.tail % recv_buf.length)
            (recv_buf.length - counter)).1).frames,
         []⟩ : notify_result) := rfl

theorem notify_preserves_inv (n threshold : ℕ) (strat : List ℕ → strat_result)
    (recv_buf : List ℕ) (counter : ℕ) (s : uart_proto_priv_data_t)
    (hbuf : recv_buf.length = n) (hc1 : 1 ≤ counter) (hc2 : counter ≤ n)
    (hsane : ∀ w, (strat w).bytes_used ≤ w.length)
    (hinv : uart_inv n s) :
    uart_inv n (notify_isr_cb threshold strat recv_buf counter s).st := by
  obtain ⟨i1, i2, i3, i4⟩ := hinv
  have hn : 0 < n := by omega
  have hm : s.tail % n < n := Nat.mod_lt _ hn
  rw [notify_isr_cb_eq, hbuf]
  set D := (n - counter + n - s.data_counter) % n with hD
  have hDlt : D < n := by
    rw [hD]
    exact Nat.mod_lt _ hn
  by_cases h1 : s.header + D = s.tail
  · rw [if_pos h1]
    show s.tail ≤ s.header + D ∧ s.header + D - s.tail < n ∧ s.data_counter < n ∧
        (s.header + D - s.tail + s.tail % n) % n = s.data_counter
    have hD0 : D = 0 := by omega
    have he : s.header + D - s.tail = s.header - s.tail := by omega
    exact ⟨by omega, by omega, i3, by rw [he]; exact i4⟩
  · rw [if_neg h1]
    by_cases h2 : n ≤ s.header + D - s.tail
    · rw [if_pos h2]
      show (0 : ℕ) ≤ 0 ∧ 0 - 0 < n ∧ 0 < n ∧ ((0 : ℕ) - 0 + 0 % n) % n = 0
      exact ⟨Nat.le_refl 0, by omega, hn, by simp⟩
    · rw [if_neg h2]
      set w := (linearize recv_buf (s.tail % n) (n - counter)).1 with hw
      have hprev : s.tail % n < recv_buf.length := by
        rw [hbuf]
        exact Nat.mod_lt _ hn
      have hci : n - counter < recv_buf.length := by
        rw [hbuf]
        omega
      have hwlen : w.length = (n - counter + n - s.tail % n) % n := by
        rw [hw, linearize_spec recv_buf (s.tail % n) (n - counter) hprev hci,
          ring_window_length, hbuf]
      have hwlenlt : w.length < n := by
        rw [hwlen]
        exact Nat.mod_lt _ hn
      have hbu : (strat w).bytes_used ≤ w.length := hsane w
      have hdc2 : s.data_counter = s.header - s.tail + s.tail % n ∨
          s.data_counter + n = s.header - s.tail + s.tail % n := by
        rcases Nat.lt_or_ge (s.header - s.tail + s.tail % n) n with hx | hx
        · left
          rw [← i4, Nat.mod_eq_of_lt hx]
        · right
          rw [← i4, mod_two_lt _ _ (by omega), if_neg (by omega)]
          omega
      have hD2 : D = n - counter + n - s.data_counter ∨
          D + n = n - counter + n - s.data_counter := by
        rcases Nat.lt_or_ge (n - counter + n - s.data_counter) n with hx | hx
        · left
          rw [hD, Nat.mod_eq_of_lt hx]
        · right
          rw [hD, mod_two_lt _ _ (by omega), if_neg (by omega)]
          omega
      have hlen2 : w.length = n - counter + n - s.tail % n ∨
          w.length + n = n - counter + n - s.tail % n := by
        rcases Nat.lt_or_ge (n - counter + n - s.tail % n) n with hx | hx
        · left
          rw [hwlen, Nat.mod_eq_of_lt hx]
        · right
          rw [hwlen, mod_two_lt _ _ (by omega), if_neg (by omega)]
          omega
      have hkey : w.length = s.header + D - s.tail := by
        rcases hdc2 with hA | hA <;> rcases hD2 with hB | hB <;>
          rcases hlen2 with hC | hC <;> omega
      have hbult : (strat w).bytes_used < n := by omega
      have htb_e : (s.tail + (strat w).bytes_used) % n =
          (s.tail % n + (strat w).bytes_used) % n := by
        conv_lhs => rw [Nat.add_mod, Nat.mod_eq_of_lt hbult]
      have htb2 : (s.tail + (strat w).bytes_used) % n = s.tail % n + (strat w).bytes_used ∨
          (s.tail + (strat w).bytes_used) % n + n = s.tail % n + (strat w).bytes_used := by
        rcases Nat.lt_or_ge (s.tail % n + (strat w).bytes_used) n with hx | hx
        · left
          rw [htb_e, Nat.mod_eq_of_lt hx]
        · right
          rw [htb_e, mod_two_lt _ _ (by omega), if_neg (by omega)]
          omega
      have htblt : (s.tail + (strat w).bytes_used) % n < n := Nat.mod_lt _ hn
      by_cases h3 : threshold ≤ (if (strat w).cleared_fail_count then 0
          else s.parse_fail_count + 1)
      · rw [if_pos h3]
        show (0 : ℕ) ≤ 0 ∧ 0 - 0 < n ∧ 0 < n ∧ ((0 : ℕ) - 0 + 0 % n) % n = 0
        exact ⟨Nat.le_refl 0, by omega, hn, by simp⟩
      · rw [if_neg h3]
        show s.tail + (strat w).bytes_used ≤ s.header + D ∧
            s.header + D - (s.tail + (strat w).bytes_used) < n ∧
            n - counter < n ∧
            (s.header + D - (s.tail + (strat w).bytes_used) +
              (s.tail + (strat w).bytes_used) % n) % n = n - counter
        refine ⟨by omega, by omega, by omega, ?_⟩
        rw [mod_two_lt _ _ (by omega)]
        split_ifs with hs4
        · rcases htb2 with he | he <;> rcases hlen2 with hC | hC <;> omega
        · rcases htb2 with he | he <;> rcases hlen2 with hC | hC <;> omega

theorem uart_reachable_inv (n threshold : ℕ) (hn : 0 < n) (s : uart_proto_priv_data_t)
    (h : uart_reachable n threshold s) : uart_inv n s := by
  induction h with
  | init =>
      show (0 : ℕ) ≤ 0 ∧ 0 - 0 < n ∧ 0 < n ∧ ((0 : ℕ) - 0 + 0 % n) % n = 0
      exact ⟨Nat.le_refl 0, by omega, hn, by simp⟩
  | step strat recv_buf counter hbuf hc1 hc2 hsane hs ih =>
      exact notify_preserves_inv n threshold strat recv_buf counter _ hbuf hc1 hc2 hsane ih

/-- C5: from any state of the UART protocol counters reachable from the
initialized state (in particular one where the consumer never advanced
`tail` while the producer's accumulated `header` advance reaches the
buffer size), a notification whose index arithmetic makes the pending
span `header - tail` reach `buffer_size` resets `header`, `tail`,
`data_counter` and `parse_fail_count` to zero and re-arms the DMA counter
to the full buffer size while delivering no frame; and after every
completed `notify_isr_cb` call the invariant `header - tail < buffer_size`
holds. -/
theorem uart_overflow_resets_and_bounds (n threshold : ℕ)
    (strat : List ℕ → strat_result) (recv_buf : List ℕ) (counter : ℕ)
    (s : uart_proto_priv_data_t)
    (hreach : uart_reachable n threshold s)
    (hbuf : recv_buf.length = n) (hc1 : 1 ≤ counter) (hc2 : counter ≤ n)
    (hsane : ∀ w, (strat w).bytes_used ≤ w.length) :
    (n ≤ s.header + (n - counter + n - s.data_counter) % n - s.tail →
      notify_isr_cb threshold strat recv_buf counter s = ⟨⟨0, 0, 0, 0⟩, [], [n]⟩) ∧
    (notify_isr_cb threshold strat recv_buf counter s).st.header -
        (notify_isr_cb threshold strat recv_buf counter s).st.tail < n := by
  have hn : 0 < n := by omega
  have hinv := uart_reachable_inv n threshold hn s hreach
  constructor
  · intro hov
    rw [notify_isr_cb_eq, hbuf]
    have ht := hinv.1
    have hne : ¬(s.header + (n - counter + n - s.data_counter) % n = s.tail) := by omega
    rw [if_neg hne, if_pos hov]
  · exact (notify_preserves_inv n threshold strat recv_buf counter s hbuf hc1 hc2 hsane
      hinv).2.1

theorem uart_overflow_resets_and_bounds_witness :
    notify_isr_cb 10 (fun _ => ⟨0, [], false⟩) (List.replicate 256 0) 256
        (notify_isr_cb 10 (fun _ => ⟨0, [], false⟩) (List.replicate 256 0) 200
          ⟨0, 0, 0, 0⟩).st =
      ⟨⟨0, 0, 0, 0⟩, [], [256]⟩ :=
  (uart_overflow_resets_and_bounds 256 10 (fun _ => ⟨0, [], false⟩)
      (List.replicate 256 0) 256
      (notify_isr_cb 10 (fun _ => ⟨0, [], false⟩) (List.replicate 256 0) 200
        ⟨0, 0, 0, 0⟩).st
      (uart_reachable.step (fun _ => ⟨0, [], false⟩) (List.replicate 256 0) 200 (by simp)
        (by decide) (by decide) (fun w => Nat.zero_le _) uart_reachable.init)
      (by simp) (by decide) (by decide) (fun w => Nat.zero_le _)).1
    (by decide)
